import Mathlib

/-!
Verification of the Kraken OHLC analysis pipeline.

Shallow embedding of the core signal-computation and scoring pipeline of a
crypto pair-ranking program:
* `fetch_ohlc` / `_resample_ohlc` (src/api/data_fetcher.py) — incremental
  OHLC cache merge with optional resampling;
* `detect_lower_highs_scored` (src/analysis/pattern_detector.py) — variant-A
  statistical descending-highs detector;
* `detect_descending_rules` / `_ema_desc` (src/analysis/pattern_detector2.py)
  — variant-B windowed-high rule detector;
* `compute_volume_profile` (src/analysis/volume_profile.py);
* `volume_decline_score`, `poc_distance_score`, `score_timeframe`,
  `aggregate_score` (src/scoring/coin_ranker.py) and the per-pair
  orchestration of `analyze_pair` (main.py).

Machine floats are modelled as exact rationals (`ℚ`); the `NaN` sentinel used
by the volume profile is modelled as `Option ℚ` with `none` for `NaN`.
Timestamps are epoch seconds (`ℤ`).  Fallible code paths (pandas `KeyError`
in the daily branch of variant B, `IndexError` in `poc_distance_score`)
surface as `Except String`.
-/

namespace Kraken

/-- One OHLCV row of a cached candle series (columns
`[time, open, high, low, close, vwap, volume, count]`). -/
structure Candle where
  time : ℤ
  open_ : ℚ
  high : ℚ
  low : ℚ
  close : ℚ
  vwap : ℚ
  volume : ℚ
  count : ℕ
  deriving DecidableEq, Repr, Inhabited

/-- `a.time ≤ b.time`; the sort key used by `sort_values("time")`. -/
def timeLE (a b : Candle) : Prop := a.time ≤ b.time

instance : DecidableRel timeLE := fun a b => inferInstanceAs (Decidable (a.time ≤ b.time))

instance : IsTotal Candle timeLE := ⟨fun a b => le_total a.time b.time⟩

instance : IsTrans Candle timeLE := ⟨fun _ _ _ h h' => le_trans h h'⟩

/-- `df.sort_values("time")`. -/
def sortByTime (l : List Candle) : List Candle := l.insertionSort timeLE

/-- `df.drop_duplicates(subset=["time"])` with pandas' default
`keep="first"`: of all rows sharing a timestamp, the first one in the
current row order is kept. -/
def dedupFirst : List Candle → List Candle
  | [] => []
  | c :: rest => c :: (dedupFirst rest).filter (fun d => d.time ≠ c.time)

/-- The timestamps of a series. -/
def times (l : List Candle) : List ℤ := l.map (·.time)

/-- `df["time"].max()` (0 on the empty frame, which the code never asks for). -/
def maxTime : List Candle → ℤ
  | [] => 0
  | c :: rest => rest.foldl (fun m d => max m d.time) c.time

/-! ### OhlcCache: `fetch_ohlc` and `_resample_ohlc` (src/api/data_fetcher.py)

The external Kraken OHLC source is modelled as a fixed upstream dataset
`F : List Candle`; `get_ohlc F since` returns the candles from `since`
onward.  The wall clock enters through `now` (epoch seconds); TTL freshness
of the cache file is an input flag `fresh` (it is a property of file
mtime vs. wall clock, outside the data path).  A resample rule is modelled
by its bucket-label function `L : ℤ → ℤ` (for month-end resampling,
`L t` = last instant of the month containing `t`, so `t ≤ L t` and
`L (L t) = L t`). -/

/-- Max over a `ℚ` column (0 on an empty column, never used that way). -/
def maxQ : List ℚ → ℚ
  | [] => 0
  | x :: xs => xs.foldl max x

/-- Min over a `ℚ` column. -/
def minQ : List ℚ → ℚ
  | [] => 0
  | x :: xs => xs.foldl min x

/-- One timeframe's configuration (config/settings.py `TimeframeConfig`). -/
structure FetchCfg where
  interval_minutes : ℕ
  history_days : Option ℕ
  resample_rule : Option (ℤ → ℤ)

/-- `_kraken_ts`: `now - days_back` days, as epoch seconds (`None` passes
through). -/
def kraken_ts (now : ℤ) (days_back : Option ℕ) : Option ℤ :=
  days_back.map (fun d : ℕ => now - (d : ℤ) * 86400)

/-- Python's `since or last_ts`: `None` and `0` are both falsy. -/
def pyOrInt (a : Option ℤ) (b : ℤ) : ℤ :=
  match a with
  | some x => if x = 0 then b else x
  | none => b

/-- The `since` cursor of `fetch_ohlc` (lines 174-182):
`since = _kraken_ts(history_days)`, then, when a cache file was loaded and
is non-empty, `since = max(since or last_ts, last_ts - interval*60)`. -/
def computeSince (cfg : FetchCfg) (now : ℤ) (base : Option (List Candle)) : Option ℤ :=
  let since0 := kraken_ts now cfg.history_days
  match base with
  | some b =>
      if b = [] then since0
      else some (max (pyOrInt since0 (maxTime b))
        (maxTime b - (cfg.interval_minutes : ℤ) * 60))
  | none => since0

/-- `client.get_ohlc(pair, interval, since)` against the fixed upstream
dataset `F`: all candles from `since` onward. -/
def get_ohlc (F : List Candle) (since : Option ℤ) : List Candle :=
  match since with
  | none => F
  | some s => F.filter (fun c => s ≤ c.time)

/-- Aggregation of one resample bucket (`_resample_ohlc`'s `.agg` dict):
open = first, high = max, low = min, close = last, vwap = mean,
volume = sum, count = sum; the row is stamped with the bucket label. -/
def aggGroup (lab : ℤ) (g : List Candle) : Candle :=
  { time := lab
    open_ := ((g.head?).map (·.open_)).getD 0
    high := maxQ (g.map (·.high))
    low := minQ (g.map (·.low))
    close := ((g.getLast?).map (·.close)).getD 0
    vwap := (g.map (·.vwap)).sum / (g.length : ℚ)
    volume := (g.map (·.volume)).sum
    count := (g.map (·.count)).sum }

/-- `_resample_ohlc(df, rule)`: group rows by bucket label, aggregate each
non-empty bucket, emit rows in ascending label order.  (pandas creates NaN
rows for empty buckets between min and max and `dropna` removes them; here
they are never created.) -/
def resample (L : ℤ → ℤ) (rows : List Candle) : List Candle :=
  let labels := ((rows.map (fun c => L c.time)).dedup).insertionSort (· ≤ ·)
  labels.map (fun lab => aggGroup lab (rows.filter (fun c => L c.time = lab)))

/-- `base_df`: loaded from the cache file only when it exists and
`refresh` is false. -/
def fetchBase (cache : Option (List Candle)) (refresh : Bool) : Option (List Candle) :=
  if refresh then none else cache

/-- Lines 196-198: `pd.concat([base_df, df])`, `drop_duplicates` on time
(keep first), `sort_values("time")` — only when a non-empty cache frame
was loaded. -/
def mergeStep (base : Option (List Candle)) (df : List Candle) : List Candle :=
  match base with
  | some b => if b = [] then df else sortByTime (dedupFirst (b ++ df))
  | none => df

/-- Optional resampling (line 200-201). -/
def resampleStep (rule : Option (ℤ → ℤ)) (df : List Candle) : List Candle :=
  match rule with
  | some L => resample L df
  | none => df

/-- The non-fresh path of `fetch_ohlc`: compute `since`, pull, parse+sort,
merge with the cached frame, resample; the result is persisted and
returned. -/
def fetchCore (cfg : FetchCfg) (F : List Candle) (now : ℤ)
    (base : Option (List Candle)) : List Candle :=
  resampleStep cfg.resample_rule
    (mergeStep base (sortByTime (get_ohlc F (computeSince cfg now base))))

/-- `fetch_ohlc(client, pair, tf, refresh)`.  `cache` is the cache file's
contents (`none` if the file does not exist), `fresh` whether its mtime age
is below the TTL. -/
def fetch_ohlc (cfg : FetchCfg) (F : List Candle) (now : ℤ)
    (cache : Option (List Candle)) (fresh refresh : Bool) : List Candle :=
  if ¬refresh ∧ fresh ∧ cache.isSome then cache.getD []
  else fetchCore cfg F now (fetchBase cache refresh)

/-! ## Claim C1 — merge collision semantics (corrected) -/

/-- Timeframe configuration used in the C1 scenario: daily-style, no
history horizon, no resample rule. -/
def c1_cfg : FetchCfg := ⟨1440, none, none⟩

/-- The cached row at timestamp 100 (close = 1). -/
def c1_old : Candle := ⟨100, 0, 0, 0, 1, 0, 0, 0⟩

/-- The freshly fetched upstream row at the same timestamp 100 with a
different value (close = 2). -/
def c1_new : Candle := ⟨100, 0, 0, 0, 2, 0, 0, 0⟩

/-- Upstream dataset for the C2 witness: one daily candle. -/
def c2_F : List Candle := [⟨86400, 1, 2, 1, 2, 1, 3, 4⟩]

/-- Monthly-style configuration for the C2 witness: unbounded history and
a resample rule whose label function is the identity (trivially expansive
and idempotent). -/
def c2_cfg : FetchCfg := ⟨1440, none, some (fun t => t)⟩

/-! ### PatternDetector variant A: `detect_lower_highs_scored`
(src/analysis/pattern_detector.py) -/

/-- `PatternResult` (pattern_detector.py): shared by both detector
variants. `peaks` holds the sub-series the decision used. -/
structure PatternResult where
  passed : Bool
  slope : ℚ
  peaks : List Candle
  score : ℚ
  violations : ℕ
  max_break_pct : ℚ
  reason : Option String
  deriving DecidableEq, Repr

/-- `np.polyfit(arange(n), ys, 1)` slope: the least-squares line through
`(i, ys[i])`, i.e. `(n·Σ i·yᵢ − Σi·Σyᵢ) / (n·Σ i² − (Σi)²)`; `_slope`
(pattern_detector2.py) returns 0 for fewer than two points. -/
def slopeOf (ys : List ℚ) : ℚ :=
  if ys.length < 2 then 0
  else
    let n := ys.length
    let sx : ℚ := ∑ i ∈ Finset.range n, (i : ℚ)
    let sy : ℚ := ∑ i ∈ Finset.range n, ys.getD i 0
    let sxy : ℚ := ∑ i ∈ Finset.range n, (i : ℚ) * ys.getD i 0
    let sxx : ℚ := ∑ i ∈ Finset.range n, (i : ℚ) * (i : ℚ)
    ((n : ℚ) * sxy - sx * sy) / ((n : ℚ) * sxx - sx * sx)

/-- `scipy.signal.argrelextrema(highs, np.greater, order=order)` in its
default `clip` mode: index `i` is kept iff `highs[i]` strictly exceeds
`highs[clip(i±j)]` for every `1 ≤ j ≤ order` (out-of-range neighbours are
clipped to the boundary, so boundary points never qualify). -/
def isLocalMax (hs : List ℚ) (order i : ℕ) : Bool :=
  (List.range order).all (fun j =>
    decide (hs.getD (min (i + (j + 1)) (hs.length - 1)) 0 < hs.getD i 0) &&
    decide (hs.getD (i - (j + 1)) 0 < hs.getD i 0))

def argrelextrema_gt (hs : List ℚ) (order : ℕ) : List ℕ :=
  (List.range hs.length).filter (fun i => isLocalMax hs order i)

/-- Consecutive pairs `(prev, cur)` of a series. -/
def adjPairs (l : List ℚ) : List (ℚ × ℚ) := l.zip l.tail

/-- One iteration of the peak-walk loop (lines 45-52): state is
`(descending_steps, violations, max_break_pct)`. -/
def stepAcc : ℕ × ℕ × ℚ → ℚ × ℚ → ℕ × ℕ × ℚ
  | (d, v, m), (prev, cur) =>
    if cur < prev then (d + 1, v, m)
    else (d, v + 1, if 0 < prev then max m ((cur - prev) / prev) else m)

/-- `df.iloc[peak_idx]`: the rows at the local-maximum indices. -/
def peakRows (df : List Candle) (order : ℕ) : List Candle :=
  (argrelextrema_gt (df.map (·.high)) order).map (fun i => df.getD i default)

/-- `peaks["high"]`: the high prices at the local-maximum indices. -/
def peakHighs (df : List Candle) (order : ℕ) : List ℚ :=
  (peakRows df order).map (·.high)

/-- The loop state `(descending_steps, violations, max_break_pct)` after
walking all consecutive peak highs. -/
def peakWalk (df : List Candle) (order : ℕ) : ℕ × ℕ × ℚ :=
  (adjPairs (peakHighs df order)).foldl stepAcc (0, 0, 0)

/-- `detect_lower_highs_scored(df, min_peaks, order)`. -/
def detect_lower_highs_scored (df : List Candle) (min_peaks : ℕ)
    (order : ℕ) : PatternResult :=
  if df = [] then ⟨false, 0, [], 0, 0, 0, some "no data"⟩
  else if df.length < max (min_peaks * order) 5 then
    ⟨false, 0, [], 0, 0, 0, some "insufficient candles"⟩
  else if (peakRows df order).length < min_peaks then
    ⟨false, 0, peakRows df order, 0, 0, 0, some "not enough peaks"⟩
  else
    ⟨decide ((1 : ℚ) / 2 ≤
        (if 0 ≤ slopeOf (peakHighs df order) then
          max ((if 0 < (peakHighs df order).length - 1 then
              ((peakWalk df order).1 : ℚ) / (((peakHighs df order).length - 1 : ℕ) : ℚ)
            else 0) - min ((peakWalk df order).2.2 * (1 / 2)) (1 / 2)) 0 * (1 / 2)
        else
          max ((if 0 < (peakHighs df order).length - 1 then
              ((peakWalk df order).1 : ℚ) / (((peakHighs df order).length - 1 : ℕ) : ℚ)
            else 0) - min ((peakWalk df order).2.2 * (1 / 2)) (1 / 2)) 0)) &&
      decide (2 ≤ (peakWalk df order).1),
      slopeOf (peakHighs df order),
      peakRows df order,
      (if 0 ≤ slopeOf (peakHighs df order) then
        max ((if 0 < (peakHighs df order).length - 1 then
            ((peakWalk df order).1 : ℚ) / (((peakHighs df order).length - 1 : ℕ) : ℚ)
          else 0) - min ((peakWalk df order).2.2 * (1 / 2)) (1 / 2)) 0 * (1 / 2)
      else
        max ((if 0 < (peakHighs df order).length - 1 then
            ((peakWalk df order).1 : ℚ) / (((peakHighs df order).length - 1 : ℕ) : ℚ)
          else 0) - min ((peakWalk df order).2.2 * (1 / 2)) (1 / 2)) 0),
      (peakWalk df order).2.1,
      (peakWalk df order).2.2,
      if (decide ((1 : ℚ) / 2 ≤
          (if 0 ≤ slopeOf (peakHighs df order) then
            max ((if 0 < (peakHighs df order).length - 1 then
                ((peakWalk df order).1 : ℚ) / (((peakHighs df order).length - 1 : ℕ) : ℚ)
              else 0) - min ((peakWalk df order).2.2 * (1 / 2)) (1 / 2)) 0 * (1 / 2)
          else
            max ((if 0 < (peakHighs df order).length - 1 then
                ((peakWalk df order).1 : ℚ) / (((peakHighs df order).length - 1 : ℕ) : ℚ)
              else 0) - min ((peakWalk df order).2.2 * (1 / 2)) (1 / 2)) 0)) &&
        decide (2 ≤ (peakWalk df order).1))
      then none else some "weak descent"⟩

/-- Spec-level count of strictly descending consecutive peak steps. -/
def descSteps (ys : List ℚ) : ℕ :=
  (adjPairs ys).countP (fun p => decide (p.2 < p.1))

/-- Spec-level count of non-descending steps ("violations"). -/
def violSteps (ys : List ℚ) : ℕ :=
  (adjPairs ys).countP (fun p => !decide (p.2 < p.1))

/-- Spec-level maximum upward break as a fraction of the prior peak. -/
def maxBreakPct (ys : List ℚ) : ℚ :=
  ((adjPairs ys).filter (fun p => !decide (p.2 < p.1) && decide (0 < p.1))).foldl
    (fun m p => max m ((p.2 - p.1) / p.1)) 0

/-- Spec-side score formula of variant A (§4.2 steps 4-5):
`baseScore = descendingSteps/totalSteps` (0 if only one step), penalty
`min(maxBreakFraction × 0.5, 0.5)`, `score = max(base − penalty, 0)`,
halved when the least-squares slope through the peak highs is ≥ 0. -/
def specScoreA (df : List Candle) (order : ℕ) : ℚ :=
  if 0 ≤ slopeOf (peakHighs df order) then
    max ((if 0 < (peakHighs df order).length - 1 then
        (descSteps (peakHighs df order) : ℚ) /
          (((peakHighs df order).length - 1 : ℕ) : ℚ)
      else 0) - min (maxBreakPct (peakHighs df order) * (1 / 2)) (1 / 2)) 0 * (1 / 2)
  else
    max ((if 0 < (peakHighs df order).length - 1 then
        (descSteps (peakHighs df order) : ℚ) /
          (((peakHighs df order).length - 1 : ℕ) : ℚ)
      else 0) - min (maxBreakPct (peakHighs df order) * (1 / 2)) (1 / 2)) 0

/-- Series with three strictly decreasing local maxima (10, 9, 8 at
indices 1, 4, 7) for the C4 witness. -/
def c4_df : List Candle :=
  [⟨0, 0, 0, 0, 0, 0, 0, 0⟩, ⟨1, 0, 10, 0, 0, 0, 0, 0⟩, ⟨2, 0, 0, 0, 0, 0, 0, 0⟩,
   ⟨3, 0, 0, 0, 0, 0, 0, 0⟩, ⟨4, 0, 9, 0, 0, 0, 0, 0⟩, ⟨5, 0, 0, 0, 0, 0, 0, 0⟩,
   ⟨6, 0, 0, 0, 0, 0, 0, 0⟩, ⟨7, 0, 8, 0, 0, 0, 0, 0⟩, ⟨8, 0, 0, 0, 0, 0, 0, 0⟩,
   ⟨9, 0, 0, 0, 0, 0, 0, 0⟩]

/-! ### PatternDetector variant B: `detect_descending_rules`
(src/analysis/pattern_detector2.py)

The precomputed indicator frame (`_load_indicators`) is an input: `none`
models a missing/unreadable file; column presence is tracked per column,
cell-level NaN as `Option ℚ`.  The daily branch evaluates
`ind.dropna(subset=["ema_200"])` unguarded (line 98), which raises
`KeyError` when the column is absent — modelled as `Except.error`. -/

structure IndRow where
  time : ℤ
  ema7 : Option ℚ
  ema12 : Option ℚ
  ema50 : Option ℚ
  ema200 : Option ℚ
  deriving DecidableEq, Repr, Inhabited

structure IndTable where
  hasTime : Bool
  hasEma7 : Bool
  hasEma12 : Bool
  hasEma50 : Bool
  hasEma200 : Bool
  rows : List IndRow
  deriving DecidableEq, Repr, Inhabited

/-- `_ema_desc(ind, col, lag, strict, tol)` given the column's presence
flag and cell values: missing/insufficient data fails when strict (passes
when tolerant); otherwise compare the last non-null value against the
value `lag` non-null rows earlier, allowing the relative tolerance. -/
def ema_desc (present : Bool) (col : String) (vals : List (Option ℚ))
    (lag : ℕ) (strict : Bool) (tol : ℚ) : Bool × Option String :=
  if ¬present then
    if strict then (false, some ("missing " ++ col)) else (true, none)
  else
    let clean := vals.filterMap id
    if clean.length ≤ lag then
      if strict then (false, some ("insufficient " ++ col)) else (true, none)
    else
      let past := clean.getD (clean.length - (lag + 1)) 0
      let recent := clean.getD (clean.length - 1) 0
      let descending := decide (recent < past * (1 + tol))
      (descending, if descending then none else some (col ++ " not descending"))

/-- Lines 85-108 of the daily branch: the trend-average (EMA) checks.
Returns `(ema_pass, reason)`, or the `KeyError` raised at line 98 when the
indicator frame lacks an `ema_200` column. -/
def daily_ema_logic (ind : Option IndTable) : Except String (Bool × Option String) :=
  match ind with
  | some t =>
    if t.hasEma50 then
      let clean50 := (t.rows.map (·.ema50)).filterMap id
      let e50 := if 50 < clean50.length then
          ema_desc t.hasEma50 "ema_50" (t.rows.map (·.ema50)) 50 true 0
        else ((false : Bool), (none : Option String))
      if ¬t.hasEma200 then .error "KeyError: ema_200"
      else
        let clean200 := (t.rows.map (·.ema200)).filterMap id
        let e200 := if 200 < clean200.length then
            ema_desc t.hasEma200 "ema_200" (t.rows.map (·.ema200)) 200 true 0
          else ((true : Bool), (none : Option String))
        if 200 < clean200.length then
          .ok (e50.1 && e200.1,
            if e50.1 && e200.1 then none
            else (e200.2 <|> e50.2 <|> some "ema 50/200 not descending"))
        else
          .ok (e50.1, if e50.1 then none else (e50.2 <|> some "ema 50 not descending"))
    else .ok (false, some "missing ema 50")
  | none => .ok (false, some "missing ema 50")

/-- `detect_descending_rules(df, tf, pair)`; `ind` is the indicator frame
the code loads for `(pair, tf)`, `now` the wall-clock instant read by the
daily and 4h branches. -/
def detect_descending_rules (df : List Candle) (tf : String)
    (ind : Option IndTable) (now : ℤ) : Except String PatternResult :=
  if df = [] then .ok ⟨false, 0, [], 0, 0, 0, some "no data"⟩
  else if tf = "monthly" then
    if df.length < 2 then .ok ⟨false, 0, [], 0, 0, 0, some "insufficient months"⟩
    else
      let last_two := df.drop (df.length - 2)
      let current_high := (last_two.getD 1 default).high
      let prev_high := (last_two.getD 0 default).high
      let highs_pass := decide (current_high ≤ prev_high)
      let ed : Bool × Option String := match ind with
        | some t => ema_desc t.hasEma12 "ema_12" (t.rows.map (·.ema12)) 12 true 0
        | none => ema_desc false "ema_12" [] 12 true 0
      let passed := highs_pass && ed.1
      .ok ⟨passed, slopeOf (last_two.map (·.high)), last_two,
        if passed then 1 else 0, if passed then 0 else 1, 0,
        if passed then none else some ((ed.2).getD "current high > prev high")⟩
  else if tf = "daily" then
    let window := df.filter (fun c => now - 30 * 86400 ≤ c.time)
    if window = [] then .ok ⟨false, 0, [], 0, 0, 0, some "no recent data"⟩
    else
      let recent := window.filter (fun c => now - 7 * 86400 ≤ c.time)
      let baseline := window.filter (fun c => c.time < now - 7 * 86400)
      if baseline = [] ∨ recent = [] then
        .ok ⟨false, 0, window, 0, 0, 0, some "not enough split"⟩
      else
        match daily_ema_logic ind with
        | .error e => .error e
        | .ok ep =>
          let highs_pass :=
            decide (maxQ (recent.map (·.high)) ≤ maxQ (baseline.map (·.high)))
          let passed := highs_pass && ep.1
          .ok ⟨passed, slopeOf (window.map (·.high)), window,
            if passed then 1 else 0, if passed then 0 else 1, 0,
            if passed then none else some ((ep.2).getD "recent high > prior window")⟩
  else if tf = "4h" then
    let window := df.filter (fun c => now - 7 * 86400 ≤ c.time)
    if window = [] then .ok ⟨false, 0, [], 0, 0, 0, some "no recent data"⟩
    else if window.length ≤ 12 then
      .ok ⟨false, 0, window, 0, 0, 0, some "not enough bars"⟩
    else
      let recent := window.drop (window.length - 12)
      let baseline := window.take (window.length - 12)
      if baseline = [] then .ok ⟨false, 0, window, 0, 0, 0, some "not enough baseline"⟩
      else
        let highs_pass :=
          decide (maxQ (recent.map (·.high)) ≤ maxQ (baseline.map (·.high)))
        let e7 : Bool × Option String := match ind with
          | some t =>
            if t.hasEma7 then
              let ind_rows := if t.hasTime then
                  t.rows.filter (fun r => now - 7 * 86400 ≤ r.time)
                else t.rows
              let rows7 := ind_rows.filter (fun r => (r.ema7).isSome)
              if 7 < rows7.length then
                ema_desc true "ema_7" (rows7.map (·.ema7)) 7 true (1 / 500)
              else ((false : Bool), some "insufficient ema_7")
            else ((false : Bool), some "missing ema_7")
          | none => ((false : Bool), some "missing ema_7")
        let passed := highs_pass && e7.1
        .ok ⟨passed, slopeOf (window.map (·.high)), window,
          if passed then 1 else 0, if passed then 0 else 1, 0,
          if passed then none else some ((e7.2).getD "recent high > prior bars")⟩
  else .ok ⟨false, 0, [], 0, 0, 0, some "unsupported tf"⟩

/-! ### VolumeProfile: `compute_volume_profile`
(src/analysis/volume_profile.py) -/

structure VolumeProfileResult where
  poc : Option ℚ
  vah : Option ℚ
  val : Option ℚ
  bin_edges : List ℚ
  histogram : List ℚ
  deriving DecidableEq, Repr

/-- The `bins+1` equal-width edges of `np.histogram` over `[lo, hi]`. -/
def histEdges (lo hi : ℚ) (bins : ℕ) : List ℚ :=
  (List.range (bins + 1)).map (fun i => lo + (i : ℚ) * (hi - lo) / (bins : ℚ))

/-- `np.histogram` bin membership: bins are left-closed, right-open,
except the last bin which is closed on both sides. -/
def inBin (lo hi : ℚ) (bins : ℕ) (i : ℕ) (p : ℚ) : Bool :=
  let e0 := lo + (i : ℚ) * (hi - lo) / (bins : ℚ)
  let e1 := lo + ((i + 1 : ℕ) : ℚ) * (hi - lo) / (bins : ℚ)
  if i + 1 = bins then decide (e0 ≤ p) && decide (p ≤ e1)
  else decide (e0 ≤ p) && decide (p < e1)

/-- `np.histogram(prices, bins, weights=volumes)`: weighted counts and
edges; a degenerate range (all prices equal) is widened by ±0.5 as numpy
does. -/
def npHistogram (prices volumes : List ℚ) (bins : ℕ) : List ℚ × List ℚ :=
  let mn := minQ prices
  let mx := maxQ prices
  let lo := if mn = mx then mn - 1 / 2 else mn
  let hi := if mn = mx then mx + 1 / 2 else mx
  ((List.range bins).map (fun i =>
      (((prices.zip volumes).filter (fun pv => inBin lo hi bins i pv.1)).map
        (fun pv => pv.2)).sum),
    histEdges lo hi bins)

/-- `np.argmax`: index of the first maximal entry. -/
def argmaxGo (bi : ℕ) (bv : ℚ) (i : ℕ) : List ℚ → ℕ
  | [] => bi
  | y :: ys => if bv < y then argmaxGo i y (i + 1) ys else argmaxGo bi bv (i + 1) ys

def argmaxIdx : List ℚ → ℕ
  | [] => 0
  | x :: xs => argmaxGo 0 x 1 xs

/-- The `while` loop of `_value_area_bounds` (lines 49-62): greedily add
the fuller neighbouring bin (ties and availability favour the right side)
until the accumulated volume reaches the target fraction or both sides
are exhausted.  Returns the lowest and highest included bin indices. -/
def vaLoop (hist : List ℚ) (total target : ℚ) (left : ℤ) (right : ℕ)
    (accum : ℚ) (lo hi : ℕ) : ℕ × ℕ :=
  if accum / total < target ∧ (0 ≤ left ∨ right < hist.length) then
    let left_vol : ℚ := if 0 ≤ left then hist.getD left.toNat 0 else -1
    let right_vol : ℚ := if right < hist.length then hist.getD right 0 else -1
    if left_vol ≤ right_vol ∧ right < hist.length then
      vaLoop hist total target left (right + 1) (accum + hist.getD right 0) lo right
    else if 0 ≤ left then
      vaLoop hist total target (left - 1) right (accum + hist.getD left.toNat 0)
        left.toNat hi
    else (lo, hi)
  else (lo, hi)
termination_by (left + 1).toNat + (hist.length - right)
decreasing_by
  · omega
  · omega

/-- `_value_area_bounds(hist, edges, poc_idx, target)` →
`(vah, val) = (edges[upper+1], edges[lower])`. -/
def value_area_bounds (hist edges : List ℚ) (poc_idx : ℕ) (target : ℚ) : ℚ × ℚ :=
  let p := vaLoop hist hist.sum target ((poc_idx : ℤ) - 1) (poc_idx + 1)
    (hist.getD poc_idx 0) poc_idx poc_idx
  (edges.getD (p.2 + 1) 0, edges.getD p.1 0)

/-- `compute_volume_profile(df, bins=30, target_value_area=0.7)`. -/
def compute_volume_profile (df : List Candle) (bins : ℕ)
    (target_value_area : ℚ) : VolumeProfileResult :=
  if df = [] ∨ (df.map (·.volume)).sum = 0 then ⟨none, none, none, [], []⟩
  else
    let hist := (npHistogram (df.map (·.close)) (df.map (·.volume)) bins).1
    let edges := (npHistogram (df.map (·.close)) (df.map (·.volume)) bins).2
    if hist.sum = 0 then ⟨none, none, none, edges, hist⟩
    else
      let poc_idx := argmaxIdx hist
      let va := value_area_bounds hist edges poc_idx target_value_area
      ⟨some ((edges.getD poc_idx 0 + edges.getD (poc_idx + 1) 0) / 2),
        some va.1, some va.2, edges, hist⟩

/-! ### Scorer: `coin_ranker.py` and the `analyze_pair` pipeline -/

structure TimeframeOutcome where
  name : String
  pattern : PatternResult
  volume_profile : VolumeProfileResult
  volume_decline_score : ℚ
  poc_distance_score : ℚ
  deriving DecidableEq, Repr

/-- `volume_decline_score(df)`: mean volume of the first position-quarter
versus the last; 0 for fewer than 10 candles or non-positive early mean. -/
def volume_decline_score (df : List Candle) : ℚ :=
  if df.length < 10 then 0
  else
    let split := max (df.length / 4) 1
    let early := ((df.take split).map (·.volume)).sum / (split : ℚ)
    let recent := ((df.drop (df.length - split)).map (·.volume)).sum / (split : ℚ)
    if early ≤ 0 then 0
    else min (max ((early - recent) / early) 0) 1

/-- `poc_distance_score(df, vp)`: `df["close"].iloc[-1]` raises
`IndexError` on an empty frame; otherwise 0 when the point-of-control is
NaN or the last close is 0, else `clip(1 − |lastClose − poc|/lastClose,
0, 1)`. -/
def poc_distance_score (df : List Candle) (vp : VolumeProfileResult) :
    Except String ℚ :=
  match df.getLast? with
  | none => .error "IndexError: single positional indexer is out-of-bounds"
  | some c =>
    match vp.poc with
    | none => .ok 0
    | some poc =>
      if c.close = 0 then .ok 0
      else .ok (min (max (1 - |c.close - poc| / c.close) 0) 1)

/-- `score_timeframe(tf_name, df, pattern, vp)`. -/
def score_timeframe (tf_name : String) (df : List Candle)
    (pattern : PatternResult) (vp : VolumeProfileResult) :
    Except String TimeframeOutcome :=
  match poc_distance_score df vp with
  | .error e => .error e
  | .ok poc_score => .ok ⟨tf_name, pattern, vp, volume_decline_score df, poc_score⟩

/-- `settings.TIMEFRAME_WEIGHTS.get(name, 0)`. -/
def timeframe_weight (tf : String) : ℚ :=
  if tf = "monthly" then 2 / 5
  else if tf = "daily" then 7 / 20
  else if tf = "4h" then 1 / 4
  else 0

/-- `settings.SOL_BONUS` (currently 0, kept as a reactivatable hook). -/
def SOL_BONUS : ℚ := 0

/-- `aggregate_score(timeframes, is_solana)`:
`Σ weight(tf) · (0.6·pattern + 0.25·volumeDecline + 0.15·pocProximity)`
plus the Solana bonus. -/
def aggregate_score (timeframes : List TimeframeOutcome) (is_solana : Bool) : ℚ :=
  (timeframes.foldl (fun score tf =>
    score + timeframe_weight tf.name *
      ((3 / 5) * tf.pattern.score + (1 / 4) * tf.volume_decline_score +
        (3 / 20) * tf.poc_distance_score)) 0)
  + (if is_solana then SOL_BONUS else 0)

/-- The per-timeframe body of `analyze_pair` (main.py, detector version 2):
detect, volume profile, score. `frames`/`inds` are the cached candle and
indicator series per timeframe. -/
def analyze_outcomes (tfs : List String) (frames : String → List Candle)
    (inds : String → Option IndTable) (now : ℤ) :
    Except String (List TimeframeOutcome) :=
  tfs.mapM (fun tf => do
    let df := frames tf
    let pattern ← detect_descending_rules df tf (inds tf) now
    let vp := compute_volume_profile df 30 (7 / 10)
    score_timeframe tf df pattern vp)

/-- `analyze_pair`'s final score over cached inputs. -/
def analyze_pair_score (tfs : List String) (frames : String → List Candle)
    (inds : String → Option IndTable) (is_solana : Bool) (now : ℤ) :
    Except String ℚ :=
  (analyze_outcomes tfs frames inds now).map
    (fun outcomes => aggregate_score outcomes is_solana)

deriving instance DecidableEq for Except

/-- Two monthly candles whose latest high (100) exceeds the previous
high (90) — the spec's own monthly-rule example. -/
def c5_df : List Candle :=
  [⟨0, 0, 90, 0, 0, 0, 0, 0⟩, ⟨2678400, 0, 100, 0, 0, 0, 0, 0⟩]

/-- Indicator table with an ema_50 column and an ema_200 column holding
EXACTLY 200 non-null points (201 rows, first ema_200 null): ema_50 is
strictly descending, ema_200 is constant. -/
def c6_ind : IndTable :=
  ⟨true, false, false, true, true,
    (List.range 201).map (fun (i : ℕ) =>
      { time := (i : ℤ), ema7 := none, ema12 := none,
        ema50 := some ((201 : ℚ) - (i : ℚ)),
        ema200 := if i = 0 then none else some 5 })⟩

/-- Daily candles: one base-window candle (day 15, high 100) and one
recent-window candle (day 39, high 50), evaluated at now = day 40. -/
def c6_df : List Candle :=
  [⟨15 * 86400, 0, 100, 0, 0, 0, 0, 0⟩, ⟨39 * 86400, 0, 50, 0, 0, 0, 0, 0⟩]

/-! ## Claim C7 — determinism of the scoring pipeline (corrected) -/

/-- Indicator table with 60 strictly descending non-null ema_50 points and
an all-null ema_200 column (so the 200-point gate is closed). -/
def c7_ind : IndTable :=
  ⟨false, false, false, true, true,
    (List.range 60).map (fun (i : ℕ) =>
      { time := (i : ℤ), ema7 := none, ema12 := none,
        ema50 := some ((60 : ℚ) - (i : ℚ)), ema200 := none })⟩

/-- Two zero-volume daily candles (day 15 high 100, day 39 high 50). -/
def c7_df : List Candle :=
  [⟨15 * 86400, 0, 100, 0, 0, 0, 0, 0⟩, ⟨39 * 86400, 0, 50, 0, 0, 0, 0, 0⟩]

def c7_frames : String → List Candle := fun _ => c7_df

def c7_inds : String → Option IndTable := fun _ => some c7_ind

def c8_df : List Candle := [⟨0, 0, 0, 0, 2, 0, 0, 0⟩]

def c8_vp : VolumeProfileResult := ⟨some 1, none, none, [], []⟩

/-! ## Claim C9 — graceful empty-series handling -/

def c9_df : List Candle := [⟨0, 0, 1, 0, 1, 0, 0, 0⟩]

/-! ## Theorems -/

theorem sortByTime_sorted (l : List Candle) : (sortByTime l).Sorted timeLE :=
  List.sorted_insertionSort timeLE l

theorem sortByTime_perm (l : List Candle) : List.Perm (sortByTime l) l :=
  List.perm_insertionSort timeLE l

theorem mem_sortByTime {l : List Candle} {c : Candle} : c ∈ sortByTime l ↔ c ∈ l :=
  List.mem_insertionSort timeLE

theorem sortByTime_eq_self {l : List Candle} (h : l.Sorted timeLE) : sortByTime l = l :=
  h.insertionSort_eq

theorem sortByTime_eq_nil {l : List Candle} : sortByTime l = [] ↔ l = [] := by
  constructor
  · intro h
    have hp := sortByTime_perm l
    rw [h] at hp
    exact hp.symm.eq_nil
  · intro h; subst h; rfl

theorem mem_times {l : List Candle} {t : ℤ} : t ∈ times l ↔ ∃ c ∈ l, c.time = t := by
  simp [times]

theorem times_sortByTime_mem {l : List Candle} {t : ℤ} :
    t ∈ times (sortByTime l) ↔ t ∈ times l := by
  simp only [mem_times]
  constructor
  · rintro ⟨c, hc, ht⟩; exact ⟨c, mem_sortByTime.mp hc, ht⟩
  · rintro ⟨c, hc, ht⟩; exact ⟨c, mem_sortByTime.mpr hc, ht⟩

theorem times_sortByTime_nodup {l : List Candle} (h : (times l).Nodup) :
    (times (sortByTime l)).Nodup := by
  have hperm := (sortByTime_perm l).map (fun c : Candle => c.time)
  exact hperm.nodup_iff.mpr h

theorem mem_dedupFirst {l : List Candle} {c : Candle} (h : c ∈ dedupFirst l) : c ∈ l := by
  induction l with
  | nil => simp [dedupFirst] at h
  | cons c0 rest ih =>
    rw [dedupFirst] at h
    rcases List.mem_cons.mp h with h0 | h0
    · exact h0 ▸ List.mem_cons_self _ _
    · exact List.mem_cons_of_mem _ (ih (List.mem_of_mem_filter h0))

theorem times_dedupFirst_mem {l : List Candle} {t : ℤ} :
    t ∈ times (dedupFirst l) ↔ t ∈ times l := by
  constructor
  · intro h
    rcases mem_times.mp h with ⟨c, hc, ht⟩
    exact mem_times.mpr ⟨c, mem_dedupFirst hc, ht⟩
  · intro h
    induction l with
    | nil => simp [times] at h
    | cons c0 rest ih =>
      rw [dedupFirst]
      rcases mem_times.mp h with ⟨c, hc, ht⟩
      rcases List.mem_cons.mp hc with h0 | h0
      · subst h0
        exact mem_times.mpr ⟨c, List.mem_cons_self _ _, ht⟩
      · by_cases he : t = c0.time
        · exact mem_times.mpr ⟨c0, List.mem_cons_self _ _, he.symm⟩
        · have hrec : t ∈ times (dedupFirst rest) := ih (mem_times.mpr ⟨c, h0, ht⟩)
          rcases mem_times.mp hrec with ⟨d, hd, hdt⟩
          have hdf : d ∈ (dedupFirst rest).filter (fun x => x.time ≠ c0.time) :=
            List.mem_filter.mpr ⟨hd, by simp [hdt, ht, he]⟩
          exact mem_times.mpr ⟨d, List.mem_cons_of_mem _ hdf, hdt⟩

theorem times_dedupFirst_nodup (l : List Candle) : (times (dedupFirst l)).Nodup := by
  induction l with
  | nil => simp [dedupFirst, times]
  | cons c0 rest ih =>
    rw [dedupFirst]
    have hshow : times (c0 :: (dedupFirst rest).filter (fun d => d.time ≠ c0.time)) =
        c0.time :: times ((dedupFirst rest).filter (fun d => d.time ≠ c0.time)) := rfl
    rw [hshow]
    refine List.nodup_cons.mpr ⟨?_, ?_⟩
    · intro hmem
      rcases mem_times.mp hmem with ⟨d, hd, hdt⟩
      exact absurd hdt (by simpa using (List.mem_filter.mp hd).2)
    · have hsub : List.Sublist
          (times ((dedupFirst rest).filter (fun d => d.time ≠ c0.time)))
          (times (dedupFirst rest)) :=
        (List.filter_sublist _).map (fun c : Candle => c.time)
      exact ih.sublist hsub

theorem dedupFirst_eq_self {l : List Candle} (h : (times l).Nodup) : dedupFirst l = l := by
  induction l with
  | nil => rfl
  | cons c0 rest ih =>
    rw [dedupFirst, ih (List.nodup_cons.mp h).2]
    have hhead : c0.time ∉ times rest := by
      simpa [times] using (List.nodup_cons.mp h).1
    rw [List.filter_eq_self.mpr]
    intro d hd
    simp only [ne_eq, decide_eq_true_eq]
    intro he
    exact hhead (mem_times.mpr ⟨d, hd, he⟩)

/-- Keep-first deduplication of a concatenation: all of `b`'s survivors,
then `xs`'s survivors at timestamps not already in `b`. -/
theorem dedupFirst_append_decomp (b xs : List Candle) :
    dedupFirst (b ++ xs) =
      dedupFirst b ++ (dedupFirst xs).filter (fun d => d.time ∉ times b) := by
  induction b with
  | nil =>
    rw [List.nil_append]
    have : (dedupFirst xs).filter (fun d => d.time ∉ times ([] : List Candle)) =
        dedupFirst xs :=
      List.filter_eq_self.mpr (fun d _ => by simp [times])
    rw [this, dedupFirst, List.nil_append]
  | cons c0 rest ih =>
    rw [List.cons_append, dedupFirst, dedupFirst, ih, List.filter_append, List.cons_append]
    congr 1
    congr 1
    rw [List.filter_filter]
    apply List.filter_congr
    intro d _
    have : (d.time ∉ times (c0 :: rest)) ↔ (d.time ≠ c0.time ∧ d.time ∉ times rest) := by
      constructor
      · intro hmem
        exact ⟨fun he => hmem (he ▸ List.mem_cons_self _ _),
          fun hm => hmem (List.mem_cons_of_mem _ hm)⟩
      · rintro ⟨hne, hm⟩ hmem
        rcases List.mem_cons.mp hmem with h0 | h0
        · exact hne h0
        · exact hm h0
    simp only [decide_eq_decide] at this ⊢
    simp [this]

theorem dedupFirst_append {b xs : List Candle} (h : ∀ x ∈ xs, x.time ∈ times b) :
    dedupFirst (b ++ xs) = dedupFirst b := by
  rw [dedupFirst_append_decomp]
  have hnil : (dedupFirst xs).filter (fun d => d.time ∉ times b) = [] :=
    List.filter_eq_nil_iff.mpr (fun d hd => by
      simp only [decide_eq_true_eq, not_not]
      exact h d (mem_dedupFirst hd))
  rw [hnil, List.append_nil]

theorem dedupFirst_keeps_first {b : List Candle} (hb : (times b).Nodup) :
    ∀ xs, ∀ c ∈ b, c ∈ dedupFirst (b ++ xs) := by
  intro xs c hc
  rw [dedupFirst_append_decomp, dedupFirst_eq_self hb]
  exact List.mem_append_left _ hc

theorem mem_dedupFirst_append_cases {b xs : List Candle} {c : Candle}
    (h : c ∈ dedupFirst (b ++ xs)) : c ∈ b ∨ (c ∈ xs ∧ c.time ∉ times b) := by
  rw [dedupFirst_append_decomp] at h
  rcases List.mem_append.mp h with h0 | h0
  · exact Or.inl (mem_dedupFirst h0)
  · right
    rcases List.mem_filter.mp h0 with ⟨h1, h2⟩
    exact ⟨mem_dedupFirst h1, by simpa using h2⟩

theorem dedupFirst_eq_nil {l : List Candle} : dedupFirst l = [] ↔ l = [] := by
  cases l with
  | nil => simp [dedupFirst]
  | cons c rest => simp [dedupFirst]

/-! ### maxTime lemmas -/

private theorem foldlMax_le (rest : List Candle) :
    ∀ a : ℤ, a ≤ rest.foldl (fun m d => max m d.time) a := by
  induction rest with
  | nil => intro a; exact le_refl a
  | cons d rest ih =>
    intro a
    exact le_trans (le_max_left a d.time) (ih (max a d.time))

private theorem mem_foldlMax (rest : List Candle) :
    ∀ a : ℤ, ∀ d ∈ rest, d.time ≤ rest.foldl (fun m d => max m d.time) a := by
  induction rest with
  | nil => intro a d hd; simp at hd
  | cons e rest ih =>
    intro a d hd
    rcases List.mem_cons.mp hd with h | h
    · subst h
      exact le_trans (le_max_right a d.time) (foldlMax_le rest _)
    · exact ih (max a e.time) d h

private theorem foldlMax_cases (rest : List Candle) :
    ∀ a : ℤ, rest.foldl (fun m d => max m d.time) a = a ∨
      rest.foldl (fun m d => max m d.time) a ∈ times rest := by
  induction rest with
  | nil => intro a; exact Or.inl rfl
  | cons e rest ih =>
    intro a
    simp only [List.foldl_cons]
    rcases ih (max a e.time) with h | h
    · rcases max_choice a e.time with h2 | h2
      · exact Or.inl (by rw [h, h2])
      · exact Or.inr (by rw [h, h2]; exact List.mem_cons_self _ _)
    · exact Or.inr (List.mem_cons_of_mem _ h)

theorem le_maxTime {l : List Candle} {c : Candle} (h : c ∈ l) : c.time ≤ maxTime l := by
  cases l with
  | nil => simp at h
  | cons c0 rest =>
    rcases List.mem_cons.mp h with h0 | h0
    · exact h0 ▸ foldlMax_le rest c0.time
    · exact mem_foldlMax rest c0.time c h0

theorem maxTime_mem {l : List Candle} (h : l ≠ []) : maxTime l ∈ times l := by
  cases l with
  | nil => exact absurd rfl h
  | cons c0 rest =>
    rcases foldlMax_cases rest c0.time with h0 | h0
    · exact mem_times.mpr ⟨c0, List.mem_cons_self _ _, h0.symm ▸ rfl⟩
    · rcases mem_times.mp h0 with ⟨d, hd, hdt⟩
      exact mem_times.mpr ⟨d, List.mem_cons_of_mem _ hd, hdt⟩

theorem maxTime_le_of_subset {l l' : List Candle} (hne : l ≠ [])
    (h : ∀ t ∈ times l, t ∈ times l') : maxTime l ≤ maxTime l' := by
  rcases mem_times.mp (h _ (maxTime_mem hne)) with ⟨c, hc, hct⟩
  exact hct ▸ le_maxTime hc

/-! ### Resample lemmas -/

theorem times_resample (L : ℤ → ℤ) (rows : List Candle) :
    times (resample L rows) =
      ((rows.map (fun c => L c.time)).dedup).insertionSort (· ≤ ·) := by
  unfold resample times
  rw [List.map_map]
  exact List.map_id _

theorem mem_times_resample {L : ℤ → ℤ} {rows : List Candle} {t : ℤ} :
    t ∈ times (resample L rows) ↔ ∃ c ∈ rows, L c.time = t := by
  rw [times_resample, List.mem_insertionSort, List.mem_dedup, List.mem_map]

theorem times_resample_sorted (L : ℤ → ℤ) (rows : List Candle) :
    (times (resample L rows)).Sorted (· ≤ ·) := by
  rw [times_resample]
  exact List.sorted_insertionSort _ _

theorem times_resample_nodup (L : ℤ → ℤ) (rows : List Candle) :
    (times (resample L rows)).Nodup := by
  rw [times_resample]
  exact (List.perm_insertionSort _ _).nodup_iff.mpr (List.nodup_dedup _)

theorem resample_sorted (L : ℤ → ℤ) (rows : List Candle) :
    (resample L rows).Sorted timeLE := by
  unfold resample
  refine List.Pairwise.map _ (fun a b h => ?_) (List.sorted_insertionSort _ _)
  exact h

theorem resample_eq_nil {L : ℤ → ℤ} {rows : List Candle} :
    resample L rows = [] ↔ rows = [] := by
  constructor
  · intro h
    unfold resample at h
    rw [List.map_eq_nil_iff] at h
    have hperm := List.perm_insertionSort (α := ℤ) (· ≤ ·)
      ((rows.map (fun c => L c.time)).dedup)
    rw [h] at hperm
    have hd := hperm.symm.eq_nil
    rw [List.dedup_eq_nil, List.map_eq_nil_iff] at hd
    exact hd
  · intro h; subst h; rfl

theorem resample_time_fixed {L : ℤ → ℤ} {rows : List Candle}
    (hL : ∀ t, L (L t) = L t) :
    ∀ c ∈ resample L rows, L c.time = c.time := by
  intro c hc
  unfold resample at hc
  rcases List.mem_map.mp hc with ⟨lab, hlab, hagg⟩
  rw [List.mem_insertionSort, List.mem_dedup, List.mem_map] at hlab
  rcases hlab with ⟨d, _, hdt⟩
  have ht : lab = c.time := congrArg Candle.time hagg
  rw [← ht, ← hdt, hL]

theorem filter_time_eq_single {rows : List Candle} {c : Candle}
    (hnodup : (times rows).Nodup) (hc : c ∈ rows) :
    rows.filter (fun d => d.time = c.time) = [c] := by
  induction rows with
  | nil => simp at hc
  | cons c0 rest ih =>
    have hhead : c0.time ∉ times rest := by
      simpa [times] using (List.nodup_cons.mp hnodup).1
    rcases List.mem_cons.mp hc with h0 | h0
    · subst h0
      rw [List.filter_cons_of_pos (by simp)]
      have : rest.filter (fun d => d.time = c.time) = [] := by
        apply List.filter_eq_nil_iff.mpr
        intro d hd
        simp only [decide_eq_true_eq]
        intro he
        exact hhead (mem_times.mpr ⟨d, hd, he⟩)
      rw [this]
    · have hne : c0.time ≠ c.time := by
        intro he
        exact hhead (he ▸ mem_times.mpr ⟨c, h0, rfl⟩)
      rw [List.filter_cons_of_neg (by simpa using hne)]
      exact ih (List.nodup_cons.mp hnodup).2 h0

theorem aggGroup_singleton (c : Candle) : aggGroup c.time [c] = c := by
  cases c
  simp [aggGroup, maxQ, minQ]

/-- Re-resampling is the identity on rows whose timestamps are already
bucket labels (fixed points of `L`) — provided the rows are sorted with
unique timestamps, as every `_resample_ohlc` output is. -/
theorem resample_fixed {L : ℤ → ℤ} {rows : List Candle}
    (hfix : ∀ c ∈ rows, L c.time = c.time)
    (hnodup : (times rows).Nodup) (hsorted : rows.Sorted timeLE) :
    resample L rows = rows := by
  unfold resample
  have hmapL : rows.map (fun c => L c.time) = rows.map (fun c => c.time) :=
    List.map_congr_left (fun c hc => hfix c hc)
  have hdedup : (rows.map (fun c => c.time)).dedup = rows.map (fun c => c.time) :=
    List.Nodup.dedup hnodup
  have hsortedZ : (rows.map (fun c => c.time)).Sorted (· ≤ ·) :=
    List.Pairwise.map _ (fun _ _ h => h) hsorted
  rw [hmapL, hdedup, hsortedZ.insertionSort_eq, List.map_map]
  have : ∀ c ∈ rows,
      (fun lab => aggGroup lab (rows.filter (fun d => L d.time = lab)))
        ((fun c : Candle => c.time) c) = c := by
    intro c hc
    have hfilter : rows.filter (fun d => L d.time = c.time) =
        rows.filter (fun d => d.time = c.time) := by
      apply List.filter_congr
      intro d hd
      rw [hfix d hd]
    simp only [Function.comp]
    rw [hfilter, filter_time_eq_single hnodup hc, aggGroup_singleton]
  calc rows.map ((fun lab => aggGroup lab (rows.filter (fun d => L d.time = lab))) ∘
        (fun c : Candle => c.time))
      = rows.map id := List.map_congr_left (fun c hc => this c hc)
    _ = rows := List.map_id rows

/-! ### mergeStep lemmas -/

theorem mergeStep_sorted {base : Option (List Candle)} {df : List Candle}
    (hdf : df.Sorted timeLE) : (mergeStep base df).Sorted timeLE := by
  cases base with
  | none => exact hdf
  | some b =>
    by_cases hb : b = []
    · simp [mergeStep, hb, hdf]
    · simp only [mergeStep, hb, if_neg hb]
      exact sortByTime_sorted _

theorem mergeStep_nodup {base : Option (List Candle)} {df : List Candle}
    (hdf : (times df).Nodup) : (times (mergeStep base df)).Nodup := by
  cases base with
  | none => exact hdf
  | some b =>
    by_cases hb : b = []
    · simpa [mergeStep, hb] using hdf
    · simp only [mergeStep, hb, if_neg hb]
      exact times_sortByTime_nodup (times_dedupFirst_nodup _)

theorem mergeStep_mem_df {base : Option (List Candle)} {df : List Candle} :
    ∀ x ∈ df, x.time ∈ times (mergeStep base df) := by
  intro x hx
  cases base with
  | none => exact mem_times.mpr ⟨x, hx, rfl⟩
  | some b =>
    by_cases hb : b = []
    · simp only [mergeStep, if_pos hb]
      exact mem_times.mpr ⟨x, hx, rfl⟩
    · simp only [mergeStep, if_neg hb]
      rw [times_sortByTime_mem, times_dedupFirst_mem]
      exact mem_times.mpr ⟨x, List.mem_append_right _ hx, rfl⟩

theorem mergeStep_mem_base {b : List Candle} {df : List Candle} (hb : b ≠ []) :
    ∀ x ∈ b, x.time ∈ times (mergeStep (some b) df) := by
  intro x hx
  simp only [mergeStep, if_neg hb]
  rw [times_sortByTime_mem, times_dedupFirst_mem]
  exact mem_times.mpr ⟨x, List.mem_append_left _ hx, rfl⟩

theorem mergeStep_eq_nil {base : Option (List Candle)} {df : List Candle}
    (h : mergeStep base df = []) : df = [] ∧ (base = none ∨ base = some []) := by
  cases base with
  | none => exact ⟨h, Or.inl rfl⟩
  | some b =>
    by_cases hb : b = []
    · simp only [mergeStep, if_pos hb] at h
      exact ⟨h, Or.inr (by rw [hb])⟩
    · simp only [mergeStep, if_neg hb] at h
      rw [sortByTime_eq_nil, dedupFirst_eq_nil, List.append_eq_nil] at h
      exact absurd h.1 hb

/-- The central merge fact: merging a batch whose timestamps are all
already present leaves the stored series unchanged. -/
theorem mergeStep_absorb {S raw : List Candle} (hsorted : S.Sorted timeLE)
    (hnodup : (times S).Nodup) (hmem : ∀ c ∈ raw, c.time ∈ times S)
    (hne : S ≠ []) :
    mergeStep (some S) (sortByTime raw) = S := by
  simp only [mergeStep, if_neg hne]
  rw [dedupFirst_append (fun x hx => hmem x (mem_sortByTime.mp hx)),
    dedupFirst_eq_self hnodup, sortByTime_eq_self hsorted]

/-! ## Claim C10 — forceRefresh ignores the cache -/

/-- C10: when `fetch` is called with forceRefresh = true, the prior cache
contents do not influence the result: two calls differing only in the
pre-existing cache file contents return equal series, and the returned
(and persisted) series is exactly the parsed, sorted (and, when
configured, resampled) upstream response from the history-horizon cursor
— no merge with the cached series, no `since` derived from it. -/
theorem C10_force_refresh_ignores_cache (cfg : FetchCfg) (F : List Candle) (now : ℤ)
    (cache₁ cache₂ : Option (List Candle)) (fresh₁ fresh₂ : Bool) :
    fetch_ohlc cfg F now cache₁ fresh₁ true = fetch_ohlc cfg F now cache₂ fresh₂ true ∧
    fetch_ohlc cfg F now cache₁ fresh₁ true =
      resampleStep cfg.resample_rule
        (sortByTime (get_ohlc F (kraken_ts now cfg.history_days))) := by
  constructor <;>
    simp [fetch_ohlc, fetchBase, fetchCore, mergeStep, computeSince]

/-! ## Claim C3 — the `since` cursor (code bug) -/

/-- C3 (code bug evidence): with no configured history horizon and a
non-empty cached series with latest timestamp `T = 1000000`, the computed
`since` cursor is `T` itself, not `T` minus one interval
(`1000000 - 1440*60 = 913600`): `max(since or last_ts, last_ts - interval)`
degenerates to `last_ts` when `since` is `None`, contradicting the
"subtract one interval to avoid gaps" comment in the source. -/
theorem C3_since_cursor_at_failing_input :
    computeSince ⟨1440, none, none⟩ 2000000 (some [⟨1000000, 0, 0, 0, 0, 0, 0, 0⟩])
        = some 1000000 ∧
    (1000000 : ℤ) - 1440 * 60 ≠ 1000000 := by
  constructor
  · decide
  · decide

/-- C1 (counterexample): the upstream batch contains a row at the cached
timestamp 100 with different values, yet the stored merge result keeps the
OLD cached row and drops the new one — `drop_duplicates` keeps the first
occurrence, so the claim that the NEW row's values are kept on every
timestamp collision is false. -/
theorem C1_counterexample_old_row_wins :
    c1_new ∈ get_ohlc [c1_new] (computeSince c1_cfg 500 (some [c1_old])) ∧
    c1_new.time = c1_old.time ∧ c1_new.close ≠ c1_old.close ∧
    fetch_ohlc c1_cfg [c1_new] 500 (some [c1_old]) false false = [c1_old] ∧
    c1_new ∉ fetch_ohlc c1_cfg [c1_new] 500 (some [c1_old]) false false := by
  refine ⟨by decide, by decide, by decide, by decide, by decide⟩

/-- C1 (amended): on the non-fresh, non-refresh path with a non-empty
cached series (unique timestamps) and no resample rule, the stored result
is the concatenation of old and new rows deduplicated by timestamp with
the OLD (cached, first-written) row's values kept on every timestamp
collision, sorted ascending: every cached row survives the merge, and a
new-batch row whose timestamp collides with the cache is dropped unless it
is identical to the cached row. -/
theorem C1_amended_merge_first_write_wins (cfg : FetchCfg) (F : List Candle)
    (now : ℤ) (b : List Candle) (hb : b ≠ []) (hnodup : (times b).Nodup)
    (hres : cfg.resample_rule = none) :
    fetch_ohlc cfg F now (some b) false false =
      sortByTime (dedupFirst
        (b ++ sortByTime (get_ohlc F (computeSince cfg now (some b))))) ∧
    (∀ c ∈ b, c ∈ fetch_ohlc cfg F now (some b) false false) ∧
    (∀ c' ∈ sortByTime (get_ohlc F (computeSince cfg now (some b))),
      c'.time ∈ times b → c' ∉ b →
        c' ∉ fetch_ohlc cfg F now (some b) false false) := by
  have hfetch : fetch_ohlc cfg F now (some b) false false =
      sortByTime (dedupFirst
        (b ++ sortByTime (get_ohlc F (computeSince cfg now (some b))))) := by
    simp [fetch_ohlc, fetchBase, fetchCore, hres, resampleStep, mergeStep, hb]
  refine ⟨hfetch, ?_, ?_⟩
  · intro c hc
    rw [hfetch, mem_sortByTime]
    exact dedupFirst_keeps_first hnodup _ c hc
  · intro c' hc' hct hcb
    rw [hfetch, mem_sortByTime]
    intro hmem
    rcases mem_dedupFirst_append_cases hmem with h0 | ⟨_, h1⟩
    · exact hcb h0
    · exact h1 hct

/-- C1 (amended, witness): instantiating the amended merge description on
the concrete collision scenario. -/
theorem C1_amended_witness :
    fetch_ohlc c1_cfg [c1_new] 500 (some [c1_old]) false false =
      sortByTime (dedupFirst ([c1_old] ++
        sortByTime (get_ohlc [c1_new] (computeSince c1_cfg 500 (some [c1_old]))))) ∧
    (∀ c ∈ [c1_old], c ∈ fetch_ohlc c1_cfg [c1_new] 500 (some [c1_old]) false false) ∧
    (∀ c' ∈ sortByTime (get_ohlc [c1_new] (computeSince c1_cfg 500 (some [c1_old]))),
      c'.time ∈ times [c1_old] → c' ∉ [c1_old] →
        c' ∉ fetch_ohlc c1_cfg [c1_new] 500 (some [c1_old]) false false) :=
  C1_amended_merge_first_write_wins c1_cfg [c1_new] 500 [c1_old]
    (by decide) (by decide) rfl

/-! ## Claim C2 — merge idempotence -/

theorem times_get_ohlc_nodup {F : List Candle} (hF : (times F).Nodup)
    (s : Option ℤ) : (times (get_ohlc F s)).Nodup := by
  cases s with
  | none => exact hF
  | some v =>
    exact hF.sublist ((List.filter_sublist F).map (fun c : Candle => c.time))

theorem mem_get_ohlc_of {F : List Candle} {c : Candle} {s : Option ℤ}
    (hc : c ∈ F) (hs : ∀ v ∈ s, v ≤ c.time) : c ∈ get_ohlc F s := by
  cases s with
  | none => exact hc
  | some v =>
    exact List.mem_filter.mpr ⟨hc, by simpa using hs v rfl⟩

theorem mem_get_ohlc_dest {F : List Candle} {c : Candle} {s : Option ℤ}
    (h : c ∈ get_ohlc F s) : c ∈ F ∧ ∀ v ∈ s, v ≤ c.time := by
  cases s with
  | none => exact ⟨h, by simp⟩
  | some v =>
    rcases List.mem_filter.mp h with ⟨h1, h2⟩
    exact ⟨h1, by simpa using h2⟩

theorem computeSince_nil_base (cfg : FetchCfg) (now : ℤ) :
    computeSince cfg now (some []) = kraken_ts now cfg.history_days := by
  simp [computeSince]

theorem computeSince_some_base {cfg : FetchCfg} {now : ℤ} {b : List Candle}
    (hb : b ≠ []) :
    computeSince cfg now (some b) =
      some (max (pyOrInt (kraken_ts now cfg.history_days) (maxTime b))
        (maxTime b - (cfg.interval_minutes : ℤ) * 60)) := by
  simp [computeSince, hb]

theorem fetchCore_nil_base (cfg : FetchCfg) (F : List Candle) (now : ℤ) :
    fetchCore cfg F now (some []) = fetchCore cfg F now none := by
  simp [fetchCore, mergeStep, computeSince]

/-- Re-pulling from upstream on top of an already-merged store: if every
incoming timestamp is already present, the merge and (optional) resample
leave the store unchanged. -/
theorem fetchCore_absorb (cfg : FetchCfg) (F : List Candle) (now : ℤ)
    (S : List Candle) (hsorted : S.Sorted timeLE) (hnodup : (times S).Nodup)
    (hfix : ∀ L ∈ cfg.resample_rule, ∀ c ∈ S, L c.time = c.time)
    (hkey : ∀ c ∈ get_ohlc F (computeSince cfg now (some S)), c.time ∈ times S)
    (hne : S ≠ []) :
    fetchCore cfg F now (some S) = S := by
  unfold fetchCore
  rw [mergeStep_absorb hsorted hnodup hkey hne]
  cases hr : cfg.resample_rule with
  | none => rfl
  | some L =>
    exact resample_fixed (hfix L (by rw [hr]; rfl)) hnodup hsorted

theorem resampleStep_nil (rule : Option (ℤ → ℤ)) : resampleStep rule [] = [] := by
  cases rule with
  | none => rfl
  | some L => exact resample_eq_nil.mpr rfl

/-- Core of the idempotence argument: a second incremental pull (at a
later or equal wall-clock instant, against the same upstream dataset) on
top of the series stored by a first pull returns that stored series
unchanged. `base₁` is the cache contents seen by the first pull (`none`
or a non-empty frame; an empty frame is normalised away beforehand). -/
theorem fetchCore_idem_aux (cfg : FetchCfg) (F : List Candle) (now₁ now₂ : ℤ)
    (base₁ : Option (List Candle))
    (hnow : now₁ ≤ now₂) (hF : (times F).Nodup)
    (hhist : ∀ d ∈ cfg.history_days, (d : ℤ) * 86400 < now₁)
    (hresL : ∀ L ∈ cfg.resample_rule, (∀ t, t ≤ L t) ∧ (∀ t, L (L t) = L t))
    (hrh : cfg.resample_rule = none ∨ cfg.history_days = none)
    (hbase : base₁ = none ∨ ∃ b, base₁ = some b ∧ b ≠ []) :
    fetchCore cfg F now₂ (some (fetchCore cfg F now₁ base₁)) =
      fetchCore cfg F now₁ base₁ := by
  obtain ⟨M, hM⟩ : ∃ M, mergeStep base₁
      (sortByTime (get_ohlc F (computeSince cfg now₁ base₁))) = M := ⟨_, rfl⟩
  have hfc : fetchCore cfg F now₁ base₁ = resampleStep cfg.resample_rule M := by
    rw [← hM]; rfl
  obtain ⟨S1, hS1⟩ : ∃ S1, resampleStep cfg.resample_rule M = S1 := ⟨_, rfl⟩
  rw [hfc, hS1]
  have hMsorted : M.Sorted timeLE := by
    rw [← hM]; exact mergeStep_sorted (sortByTime_sorted _)
  have hMnodup : (times M).Nodup := by
    rw [← hM]
    exact mergeStep_nodup (times_sortByTime_nodup (times_get_ohlc_nodup hF _))
  have hS1sorted : S1.Sorted timeLE := by
    rw [← hS1]
    cases hr : cfg.resample_rule with
    | none => simpa [resampleStep] using hMsorted
    | some L => simp only [resampleStep]; exact resample_sorted L M
  have hS1nodup : (times S1).Nodup := by
    rw [← hS1]
    cases hr : cfg.resample_rule with
    | none => simpa [resampleStep] using hMnodup
    | some L => simp only [resampleStep]; exact times_resample_nodup L M
  have hfix : ∀ L ∈ cfg.resample_rule, ∀ c ∈ S1, L c.time = c.time := by
    intro L hL c hc
    have hr : cfg.resample_rule = some L := hL
    rw [← hS1, hr] at hc
    exact resample_time_fixed (hresL L hL).2 c hc
  by_cases hne : S1 = []
  · -- the first pull stored nothing: the cache was effectively empty and
    -- the upstream had nothing past the horizon; the same holds at now₂.
    subst hne
    have hMnil : M = [] := by
      cases hr : cfg.resample_rule with
      | none => rw [hr] at hS1; simpa [resampleStep] using hS1
      | some L => rw [hr] at hS1; exact resample_eq_nil.mp hS1
    rw [hMnil] at hM
    rcases mergeStep_eq_nil hM with ⟨hdf, hbcases⟩
    have hbase₁ : base₁ = none := by
      rcases hbase with h | ⟨b, hb, hbne⟩
      · exact h
      · exfalso
        rcases hbcases with h0 | h0
        · rw [hb] at h0; exact Option.noConfusion h0
        · rw [hb] at h0
          exact hbne (Option.some_inj.mp h0)
    rw [hbase₁] at hdf
    have hraw₁ : get_ohlc F (kraken_ts now₁ cfg.history_days) = [] := by
      have h0 := sortByTime_eq_nil.mp hdf
      exact h0
    rw [fetchCore_nil_base]
    have hraw₂ : get_ohlc F (kraken_ts now₂ cfg.history_days) = [] := by
      cases hd : cfg.history_days with
      | none =>
        rw [hd] at hraw₁
        exact hraw₁
      | some d =>
        rw [hd] at hraw₁
        simp only [kraken_ts, Option.map_some', get_ohlc] at hraw₁ ⊢
        apply List.filter_eq_nil_iff.mpr
        intro c hc
        simp only [decide_eq_true_eq]
        intro hle
        have hc1 : c ∈ F.filter (fun c => decide (now₁ - (d : ℤ) * 86400 ≤ c.time)) :=
          List.mem_filter.mpr ⟨hc, by
            simp only [decide_eq_true_eq]
            omega⟩
        rw [hraw₁] at hc1
        exact absurd hc1 (List.not_mem_nil c)
    show resampleStep cfg.resample_rule
      (sortByTime (get_ohlc F (kraken_ts now₂ cfg.history_days))) = []
    rw [hraw₂]
    exact resampleStep_nil _
  · -- the stored series is non-empty: every candle the second pull can
    -- receive has a timestamp already present in the store.
    have hMne : M ≠ [] := by
      intro h
      apply hne
      rw [← hS1, h]
      exact resampleStep_nil _
    -- every merged timestamp is at most the stored maximum
    have hMle : ∀ u ∈ times M, u ≤ maxTime S1 := by
      intro u hu
      cases hr : cfg.resample_rule with
      | none =>
        have hSM : S1 = M := by rw [← hS1, hr]; rfl
        rcases mem_times.mp (hSM ▸ hu) with ⟨row, hrow, hrt⟩
        exact hrt ▸ le_maxTime hrow
      | some L =>
        rcases mem_times.mp hu with ⟨row, hrow, hrt⟩
        have hLu : L u ∈ times S1 := by
          rw [← hS1, hr]
          simp only [resampleStep]
          exact mem_times_resample.mpr ⟨row, hrow, by rw [hrt]⟩
        rcases mem_times.mp hLu with ⟨row', hrow', hrt'⟩
        have h1 : u ≤ L u := (hresL L hr).1 u
        have h2 : L u ≤ maxTime S1 := hrt' ▸ le_maxTime hrow'
        exact le_trans h1 h2
    apply fetchCore_absorb cfg F now₂ S1 hS1sorted hS1nodup hfix ?_ hne
    -- the key containment: every candle of the second pull has a stored timestamp
    intro c hc
    rw [computeSince_some_base hne] at hc
    rcases mem_get_ohlc_dest hc with ⟨hcF, hcs⟩
    have hs2 : max (pyOrInt (kraken_ts now₂ cfg.history_days) (maxTime S1))
        (maxTime S1 - (cfg.interval_minutes : ℤ) * 60) ≤ c.time := hcs _ rfl
    have hq : maxTime S1 - (cfg.interval_minutes : ℤ) * 60 ≤ c.time :=
      le_trans (le_max_right _ _) hs2
    suffices hcraw₁ : c ∈ get_ohlc F (computeSince cfg now₁ base₁) by
      have hcM : c.time ∈ times M := by
        rw [← hM]
        exact mergeStep_mem_df c (mem_sortByTime.mpr hcraw₁)
      cases hr : cfg.resample_rule with
      | none =>
        have hSM : S1 = M := by rw [← hS1, hr]; rfl
        rw [hSM]
        exact hcM
      | some L =>
        have hd : cfg.history_days = none := by
          rcases hrh with h | h
          · rw [hr] at h; exact Option.noConfusion h
          · exact h
        have hMc : maxTime S1 ≤ c.time := by
          rw [hd] at hs2
          exact le_trans (le_max_left _ _) hs2
        have heq : c.time = maxTime S1 := le_antisymm (hMle _ hcM) hMc
        rw [heq]
        exact maxTime_mem hne
    apply mem_get_ohlc_of hcF
    intro v hv
    rcases hbase with hb | ⟨b, hb, hbne⟩
    · subst hb
      have hv' : kraken_ts now₁ cfg.history_days = some v := hv
      cases hd : cfg.history_days with
      | none =>
        rw [hd] at hv'
        simp [kraken_ts] at hv'
      | some d =>
        rw [hd] at hv' hs2
        simp only [kraken_ts, Option.map_some', Option.some_inj] at hv'
        have hdlt : (d : ℤ) * 86400 < now₁ := hhist d (by rw [hd]; rfl)
        have hne0 : now₂ - (d : ℤ) * 86400 ≠ 0 := by omega
        rw [show pyOrInt (kraken_ts now₂ (some d)) (maxTime S1)
            = now₂ - (d : ℤ) * 86400 from by simp [pyOrInt, kraken_ts, hne0]] at hs2
        have h2d : now₂ - (d : ℤ) * 86400 ≤ c.time := le_trans (le_max_left _ _) hs2
        omega
    · subst hb
      rw [computeSince_some_base hbne] at hv
      have hv' : max (pyOrInt (kraken_ts now₁ cfg.history_days) (maxTime b))
          (maxTime b - (cfg.interval_minutes : ℤ) * 60) = v := Option.some_inj.mp hv
      have hble : maxTime b ≤ maxTime S1 := by
        have hsub : ∀ t ∈ times b, t ∈ times M := by
          intro t ht
          rcases mem_times.mp ht with ⟨x, hx, hxt⟩
          rw [← hxt, ← hM]
          exact mergeStep_mem_base hbne x hx
        have h1 : maxTime b ≤ maxTime M := maxTime_le_of_subset hbne hsub
        have h2 : maxTime M ≤ maxTime S1 := hMle _ (maxTime_mem hMne)
        exact le_trans h1 h2
      rw [← hv']
      apply max_le
      · cases hd : cfg.history_days with
        | none =>
          rw [hd] at hs2
          have hMc : maxTime S1 ≤ c.time := le_trans (le_max_left _ _) hs2
          exact le_trans hble hMc
        | some d =>
          rw [hd] at hs2
          have hdlt : (d : ℤ) * 86400 < now₁ := hhist d (by rw [hd]; rfl)
          have hne0 : now₂ - (d : ℤ) * 86400 ≠ 0 := by omega
          have hne0' : now₁ - (d : ℤ) * 86400 ≠ 0 := by omega
          rw [show pyOrInt (kraken_ts now₂ (some d)) (maxTime S1)
              = now₂ - (d : ℤ) * 86400 from by simp [pyOrInt, kraken_ts, hne0]] at hs2
          have h2d : now₂ - (d : ℤ) * 86400 ≤ c.time := le_trans (le_max_left _ _) hs2
          rw [show pyOrInt (kraken_ts now₁ (some d)) (maxTime b)
              = now₁ - (d : ℤ) * 86400 from by simp [pyOrInt, kraken_ts, hne0']]
          omega
      · omega

/-- C2: OhlcCache merge is idempotent.  For every cache state and every
fixed upstream dataset, running `fetch` a second time (non-forced, at the
same or a later instant) on top of the series persisted by a first
non-fresh fetch leaves the stored series unchanged — including for
timeframes with a resample rule, whose bucket-label function is expansive
(`t ≤ L t`) and idempotent (`L (L t) = L t`), as month-end labelling is;
per the shipped configuration, a resample rule implies an unbounded
history horizon. -/
theorem C2_merge_idempotent (cfg : FetchCfg) (F : List Candle) (now₁ now₂ : ℤ)
    (cache : Option (List Candle)) (refresh₁ fresh₂ : Bool)
    (hnow : now₁ ≤ now₂) (hF : (times F).Nodup)
    (hhist : ∀ d ∈ cfg.history_days, (d : ℤ) * 86400 < now₁)
    (hresL : ∀ L ∈ cfg.resample_rule, (∀ t, t ≤ L t) ∧ (∀ t, L (L t) = L t))
    (hrh : cfg.resample_rule = none ∨ cfg.history_days = none) :
    fetch_ohlc cfg F now₂ (some (fetch_ohlc cfg F now₁ cache false refresh₁))
        fresh₂ false
      = fetch_ohlc cfg F now₁ cache false refresh₁ := by
  have h1 : fetch_ohlc cfg F now₁ cache false refresh₁ =
      fetchCore cfg F now₁ (fetchBase cache refresh₁) := by
    simp [fetch_ohlc]
  rw [h1]
  cases fresh₂ with
  | true =>
    simp [fetch_ohlc]
  | false =>
    have h2 : fetch_ohlc cfg F now₂
        (some (fetchCore cfg F now₁ (fetchBase cache refresh₁))) false false =
        fetchCore cfg F now₂
          (some (fetchCore cfg F now₁ (fetchBase cache refresh₁))) := by
      simp [fetch_ohlc, fetchBase]
    rw [h2]
    rcases hb : fetchBase cache refresh₁ with _ | b
    · exact fetchCore_idem_aux cfg F now₁ now₂ none hnow hF hhist hresL hrh (Or.inl rfl)
    · by_cases hbe : b = []
      · subst hbe
        rw [fetchCore_nil_base]
        exact fetchCore_idem_aux cfg F now₁ now₂ none hnow hF hhist hresL hrh (Or.inl rfl)
      · exact fetchCore_idem_aux cfg F now₁ now₂ (some b) hnow hF hhist hresL hrh
          (Or.inr ⟨b, rfl, hbe⟩)

/-- C2 (witness): the idempotence theorem applied to a concrete
resample-rule configuration, upstream dataset and empty starting cache. -/
theorem C2_merge_idempotent_witness :
    fetch_ohlc c2_cfg c2_F 100 (some (fetch_ohlc c2_cfg c2_F 50 none false false))
        false false
      = fetch_ohlc c2_cfg c2_F 50 none false false :=
  C2_merge_idempotent c2_cfg c2_F 50 100 none false false (by decide) (by decide)
    (by intro d hd; exact absurd hd (by simp [c2_cfg]))
    (by
      intro L hL
      have : some (fun t : ℤ => t) = some L := hL
      have hLid : (fun t : ℤ => t) = L := Option.some_inj.mp this
      subst hLid
      exact ⟨fun t => le_refl t, fun t => rfl⟩)
    (Or.inr rfl)

theorem stepAcc_loop (pairs : List (ℚ × ℚ)) :
    ∀ d v m, pairs.foldl stepAcc (d, v, m) =
      (d + pairs.countP (fun p => decide (p.2 < p.1)),
       v + pairs.countP (fun p => !decide (p.2 < p.1)),
       (pairs.filter (fun p => !decide (p.2 < p.1) && decide (0 < p.1))).foldl
         (fun m p => max m ((p.2 - p.1) / p.1)) m) := by
  induction pairs with
  | nil => intro d v m; simp
  | cons p rest ih =>
    intro d v m
    rcases p with ⟨prev, cur⟩
    by_cases hlt : cur < prev
    · rw [List.foldl_cons]
      show rest.foldl stepAcc (stepAcc (d, v, m) (prev, cur)) = _
      rw [show stepAcc (d, v, m) (prev, cur) = (d + 1, v, m) from by
        simp [stepAcc, hlt]]
      rw [ih]
      simp only [List.countP_cons, List.filter_cons, hlt]
      simp [Nat.add_assoc, Nat.add_comm]
    · by_cases hpos : 0 < prev
      · rw [List.foldl_cons]
        show rest.foldl stepAcc (stepAcc (d, v, m) (prev, cur)) = _
        rw [show stepAcc (d, v, m) (prev, cur) =
            (d, v + 1, max m ((cur - prev) / prev)) from by
          simp [stepAcc, hlt, hpos]]
        rw [ih]
        simp only [List.countP_cons, List.filter_cons, hlt, hpos]
        simp [Nat.add_assoc, Nat.add_comm]
      · rw [List.foldl_cons]
        show rest.foldl stepAcc (stepAcc (d, v, m) (prev, cur)) = _
        rw [show stepAcc (d, v, m) (prev, cur) = (d, v + 1, m) from by
          simp [stepAcc, hlt, hpos]]
        rw [ih]
        simp only [List.countP_cons, List.filter_cons, hlt, hpos]
        simp [Nat.add_assoc, Nat.add_comm]

/-! ### Sign of the least-squares slope through strictly decreasing data -/

theorem sum_pair_identity (n : ℕ) (f g : ℕ → ℚ) :
    ∑ i ∈ Finset.range n, ∑ j ∈ Finset.range n, (f i - f j) * (g i - g j)
      = 2 * ((n : ℚ) * (∑ i ∈ Finset.range n, f i * g i)
        - (∑ i ∈ Finset.range n, f i) * (∑ i ∈ Finset.range n, g i)) := by
  have hexp : ∀ i, ∑ j ∈ Finset.range n, (f i - f j) * (g i - g j)
      = (n : ℚ) * (f i * g i) - f i * (∑ j ∈ Finset.range n, g j)
        - (∑ j ∈ Finset.range n, f j) * g i
        + ∑ j ∈ Finset.range n, f j * g j := by
    intro i
    rw [Finset.sum_congr rfl (fun j _ => by ring :
      ∀ j ∈ Finset.range n, (f i - f j) * (g i - g j)
        = f i * g i - f i * g j - f j * g i + f j * g j)]
    rw [Finset.sum_add_distrib, Finset.sum_sub_distrib, Finset.sum_sub_distrib,
      Finset.sum_const, Finset.card_range, nsmul_eq_mul, ← Finset.mul_sum,
      ← Finset.sum_mul]
  rw [Finset.sum_congr rfl (fun i _ => hexp i)]
  rw [Finset.sum_add_distrib, Finset.sum_sub_distrib, Finset.sum_sub_distrib]
  simp only [← Finset.mul_sum, ← Finset.sum_mul, Finset.sum_const,
    Finset.card_range, nsmul_eq_mul]
  ring

theorem den_pos (n : ℕ) (hn : 2 ≤ n) :
    0 < (n : ℚ) * (∑ i ∈ Finset.range n, (i : ℚ) * (i : ℚ))
      - (∑ i ∈ Finset.range n, (i : ℚ)) * (∑ i ∈ Finset.range n, (i : ℚ)) := by
  have hid := sum_pair_identity n (fun i => (i : ℚ)) (fun i => (i : ℚ))
  have hpos : 0 < ∑ i ∈ Finset.range n, ∑ j ∈ Finset.range n,
      ((i : ℚ) - (j : ℚ)) * ((i : ℚ) - (j : ℚ)) := by
    apply Finset.sum_pos'
    · intro i _
      apply Finset.sum_nonneg
      intro j _
      exact mul_self_nonneg _
    · refine ⟨0, Finset.mem_range.mpr (by omega), ?_⟩
      apply Finset.sum_pos'
      · intro j _
        exact mul_self_nonneg _
      · refine ⟨1, Finset.mem_range.mpr (by omega), by norm_num⟩
  rw [hid] at hpos
  linarith

theorem num_neg (n : ℕ) (hn : 2 ≤ n) (y : ℕ → ℚ)
    (hy : ∀ i j, i < j → j < n → y j < y i) :
    (n : ℚ) * (∑ i ∈ Finset.range n, (i : ℚ) * y i)
      - (∑ i ∈ Finset.range n, (i : ℚ)) * (∑ i ∈ Finset.range n, y i) < 0 := by
  have hid := sum_pair_identity n (fun i => (i : ℚ)) y
  have h0mem : (0 : ℕ) ∈ Finset.range n := Finset.mem_range.mpr (by omega)
  have h1mem : (1 : ℕ) ∈ Finset.range n := Finset.mem_range.mpr (by omega)
  have hterm : ∀ i ∈ Finset.range n, ∀ j ∈ Finset.range n,
      ((i : ℚ) - (j : ℚ)) * (y i - y j) ≤ 0 := by
    intro i hi j hj
    rcases lt_trichotomy i j with h | h | h
    · have h1 : (i : ℚ) - (j : ℚ) < 0 := by
        have : (i : ℚ) < (j : ℚ) := by exact_mod_cast h
        linarith
      have h2 : 0 < y i - y j := by
        have := hy i j h (Finset.mem_range.mp hj)
        linarith
      nlinarith
    · subst h; simp
    · have h1 : 0 < (i : ℚ) - (j : ℚ) := by
        have : (j : ℚ) < (i : ℚ) := by exact_mod_cast h
        linarith
      have h2 : y i - y j < 0 := by
        have := hy j i h (Finset.mem_range.mp hi)
        linarith
      nlinarith
  have hterm01 : ((0 : ℕ) : ℚ) - ((1 : ℕ) : ℚ) < 0 ∧ 0 < y 0 - y 1 := by
    constructor
    · norm_num
    · have := hy 0 1 (by omega) (by omega)
      linarith
  have hstrict : ∑ j ∈ Finset.range n, (((0 : ℕ) : ℚ) - (j : ℚ)) * (y 0 - y j) < 0 := by
    have h := Finset.sum_lt_sum
      (f := fun (j : ℕ) => (((0 : ℕ) : ℚ) - (j : ℚ)) * (y 0 - y j))
      (g := fun _ => (0 : ℚ))
      (fun j hj => hterm 0 h0mem j hj)
      ⟨1, h1mem, by simpa using mul_neg_of_neg_of_pos hterm01.1 hterm01.2⟩
    simpa using h
  have hneg : ∑ i ∈ Finset.range n, ∑ j ∈ Finset.range n,
      ((i : ℚ) - (j : ℚ)) * (y i - y j) < 0 := by
    have h := Finset.sum_lt_sum
      (f := fun (i : ℕ) => ∑ j ∈ Finset.range n, ((i : ℚ) - (j : ℚ)) * (y i - y j))
      (g := fun _ => (0 : ℚ))
      (fun i hi => Finset.sum_nonpos (fun j hj => hterm i hi j hj))
      ⟨0, h0mem, hstrict⟩
    simpa using h
  rw [hid] at hneg
  linarith

theorem peakWalk_eq (df : List Candle) (order : ℕ) :
    peakWalk df order =
      (descSteps (peakHighs df order), violSteps (peakHighs df order),
        maxBreakPct (peakHighs df order)) := by
  unfold peakWalk
  rw [stepAcc_loop]
  simp [descSteps, violSteps, maxBreakPct]

theorem adjPairs_length (ys : List ℚ) : (adjPairs ys).length = ys.length - 1 := by
  unfold adjPairs
  rw [List.length_zip, List.length_tail]
  omega

theorem adjPairs_getD {ys : List ℚ} {k : ℕ} (h : k + 1 < ys.length) :
    (ys.getD k 0, ys.getD (k + 1) 0) ∈ adjPairs ys := by
  unfold adjPairs
  have hk : k < (ys.zip ys.tail).length := by
    rw [List.length_zip, List.length_tail]; omega
  have hget : (ys.zip ys.tail)[k] = (ys.getD k 0, ys.getD (k + 1) 0) := by
    rw [List.getElem_zip]
    congr 1
    · exact (List.getD_eq_getElem ys 0 (by omega)).symm
    · rw [List.getElem_tail]
      exact (List.getD_eq_getElem ys 0 (by omega)).symm
  rw [← hget]
  exact List.getElem_mem hk

theorem strict_anti_of_adj {n : ℕ} {y : ℕ → ℚ}
    (h : ∀ k, k + 1 < n → y (k + 1) < y k) :
    ∀ i j, i < j → j < n → y j < y i := by
  intro i j hij hjn
  induction j with
  | zero => omega
  | succ k ih =>
    by_cases hik : i = k
    · subst hik; exact h i hjn
    · have h1 : y (k + 1) < y k := h k hjn
      have h2 : y k < y i := ih (by omega) (by omega)
      exact lt_trans h1 h2

theorem slopeOf_neg {ys : List ℚ} (h2 : 2 ≤ ys.length)
    (hdec : ∀ k, k + 1 < ys.length → ys.getD (k + 1) 0 < ys.getD k 0) :
    slopeOf ys < 0 := by
  unfold slopeOf
  rw [if_neg (by omega)]
  have hy : ∀ i j, i < j → j < ys.length → ys.getD j 0 < ys.getD i 0 :=
    strict_anti_of_adj hdec
  exact div_neg_of_neg_of_pos (num_neg ys.length h2 _ hy) (den_pos ys.length h2)

set_option maxHeartbeats 1000000 in
/-- C4: on every series long enough (`len ≥ max(minPeaks·order, 5)`) that
yields at least `minPeaks` local maxima, variant A returns
score = max(descendingSteps/totalSteps − min(maxBreakFraction·0.5, 0.5), 0),
halved when the least-squares slope through the peak highs is ≥ 0, and
passed = (score ≥ 0.5 AND descendingSteps ≥ 2), with reason null exactly
when passed; consequently a strictly monotonically decreasing sequence of
≥ minPeaks peaks (minPeaks ≥ 3, hence negative slope) yields passed = true
and score = 1. -/
theorem C4_variantA_score_formula (df : List Candle) (min_peaks order : ℕ)
    (hlen : max (min_peaks * order) 5 ≤ df.length)
    (hpk : min_peaks ≤ (peakRows df order).length) :
    (detect_lower_highs_scored df min_peaks order).score = specScoreA df order ∧
    (detect_lower_highs_scored df min_peaks order).passed =
      (decide ((1 : ℚ) / 2 ≤ specScoreA df order) &&
        decide (2 ≤ descSteps (peakHighs df order))) ∧
    (detect_lower_highs_scored df min_peaks order).slope =
      slopeOf (peakHighs df order) ∧
    (detect_lower_highs_scored df min_peaks order).violations =
      violSteps (peakHighs df order) ∧
    (detect_lower_highs_scored df min_peaks order).max_break_pct =
      maxBreakPct (peakHighs df order) ∧
    (detect_lower_highs_scored df min_peaks order).reason =
      (if (detect_lower_highs_scored df min_peaks order).passed then none
        else some "weak descent") ∧
    (3 ≤ min_peaks → (∀ p ∈ adjPairs (peakHighs df order), p.2 < p.1) →
      (detect_lower_highs_scored df min_peaks order).passed = true ∧
      (detect_lower_highs_scored df min_peaks order).score = 1) := by
  have hne : df ≠ [] := by
    intro h
    rw [h] at hlen
    simp at hlen
  have hr : detect_lower_highs_scored df min_peaks order =
      ⟨decide ((1 : ℚ) / 2 ≤ specScoreA df order) &&
        decide (2 ≤ descSteps (peakHighs df order)),
        slopeOf (peakHighs df order),
        peakRows df order,
        specScoreA df order,
        violSteps (peakHighs df order),
        maxBreakPct (peakHighs df order),
        if (decide ((1 : ℚ) / 2 ≤ specScoreA df order) &&
            decide (2 ≤ descSteps (peakHighs df order)))
        then none else some "weak descent"⟩ := by
    unfold detect_lower_highs_scored
    rw [if_neg hne, if_neg (by omega), if_neg (by omega), peakWalk_eq]
    simp only [specScoreA]
  refine ⟨by rw [hr], by rw [hr], by rw [hr], by rw [hr], by rw [hr], by rw [hr], ?_⟩
  intro hmp3 hdec
  have hlenph : (peakHighs df order).length = (peakRows df order).length :=
    List.length_map _ _
  have h3 : 3 ≤ (peakHighs df order).length := by omega
  have htot : 2 ≤ (peakHighs df order).length - 1 := by omega
  have hD : descSteps (peakHighs df order) = (peakHighs df order).length - 1 := by
    unfold descSteps
    rw [List.countP_eq_length.mpr (fun p hp => by simpa using hdec p hp)]
    exact adjPairs_length _
  have hB : maxBreakPct (peakHighs df order) = 0 := by
    unfold maxBreakPct
    have hfil : (adjPairs (peakHighs df order)).filter
        (fun p => !decide (p.2 < p.1) && decide (0 < p.1)) = [] :=
      List.filter_eq_nil_iff.mpr (fun p hp => by simp [hdec p hp])
    rw [hfil]
    rfl
  have hslope : slopeOf (peakHighs df order) < 0 :=
    slopeOf_neg (by omega) (fun k hk => hdec _ (adjPairs_getD hk))
  have hscore1 : specScoreA df order = 1 := by
    unfold specScoreA
    rw [if_neg (not_le.mpr hslope), if_pos (by omega), hD, hB]
    rw [div_self (by
      exact_mod_cast Nat.cast_ne_zero.mpr (by omega : (peakHighs df order).length - 1 ≠ 0))]
    norm_num
  constructor
  · rw [hr]
    show (decide ((1 : ℚ) / 2 ≤ specScoreA df order) &&
      decide (2 ≤ descSteps (peakHighs df order))) = true
    rw [hscore1, hD]
    simp only [Bool.and_eq_true, decide_eq_true_eq]
    constructor
    · norm_num
    · omega
  · rw [hr]
    show specScoreA df order = 1
    exact hscore1

/-- C4 (witness): the formula theorem applied to the concrete
strictly-decreasing-peaks series yields a pass with score 1. -/
theorem C4_variantA_witness :
    (detect_lower_highs_scored c4_df 3 2).passed = true ∧
    (detect_lower_highs_scored c4_df 3 2).score = 1 :=
  (C4_variantA_score_formula c4_df 3 2 (by decide) (by decide)).2.2.2.2.2.2
    (by decide) (by decide)

/-! ## Claim C5 — variant-B monthly rule -/

/-- C5: on timeframe "monthly", for every series of at least 2 periods
whose most recent high strictly exceeds the previous high, variant B
fails (passed = false, score = 0.0) regardless of the indicator data. -/
theorem C5_monthly_highs_fail (df : List Candle) (ind : Option IndTable) (now : ℤ)
    (h2 : 2 ≤ df.length)
    (hgt : (df.getD (df.length - 2) default).high <
      (df.getD (df.length - 1) default).high) :
    (detect_descending_rules df "monthly" ind now).map (·.passed) =
      Except.ok false ∧
    (detect_descending_rules df "monthly" ind now).map (·.score) =
      Except.ok (0 : ℚ) := by
  have hne : df ≠ [] := by
    intro h
    rw [h] at h2
    simp at h2
  have hd0 : (df.drop (df.length - 2)).getD 0 default =
      df.getD (df.length - 2) default := by
    rw [List.getD_eq_getElem _ _ (by rw [List.length_drop]; omega),
      List.getD_eq_getElem _ _ (by omega : df.length - 2 < df.length)]
    rw [List.getElem_drop]
    congr 1
  have hd1 : (df.drop (df.length - 2)).getD 1 default =
      df.getD (df.length - 1) default := by
    rw [List.getD_eq_getElem _ _ (by rw [List.length_drop]; omega),
      List.getD_eq_getElem _ _ (by omega : df.length - 1 < df.length)]
    rw [List.getElem_drop]
    congr 1
    omega
  have hpass : decide (((df.drop (df.length - 2)).getD 1 default).high ≤
      ((df.drop (df.length - 2)).getD 0 default).high) = false := by
    apply decide_eq_false
    rw [hd0, hd1]
    exact not_le.mpr hgt
  unfold detect_descending_rules
  rw [if_neg hne, if_pos rfl, if_neg (by omega)]
  constructor
  · simp only [hpass, Bool.false_and]
    rfl
  · simp only [hpass, Bool.false_and]
    rfl

/-- C5 (witness): the monthly rule fails on the concrete 90-then-100
series regardless of indicator state. -/
theorem C5_monthly_highs_fail_witness :
    (detect_descending_rules c5_df "monthly" none 0).map (·.passed) =
      Except.ok false ∧
    (detect_descending_rules c5_df "monthly" none 0).map (·.score) =
      Except.ok (0 : ℚ) :=
  C5_monthly_highs_fail c5_df none 0 (by decide) (by decide)

/-! ## Claim C6 â variant-B daily EMA gate (corrected) -/

theorem daily_ema_logic_none :
    daily_ema_logic none = .ok (false, some "missing ema 50") := rfl

theorem daily_ema_logic_no50 {t : IndTable} (h : t.hasEma50 = false) :
    daily_ema_logic (some t) = .ok (false, some "missing ema 50") := by
  simp [daily_ema_logic, h]

theorem daily_ema_logic_no200 {t : IndTable} (h50 : t.hasEma50 = true)
    (h200 : t.hasEma200 = false) :
    daily_ema_logic (some t) = .error "KeyError: ema_200" := by
  simp [daily_ema_logic, h50, h200]

theorem daily_ema_logic_both {t : IndTable} (h50 : t.hasEma50 = true)
    (h200 : t.hasEma200 = true) :
    (daily_ema_logic (some t)).map (·.1) =
      Except.ok (if 200 < ((t.rows.map (·.ema200)).filterMap id).length then
        (ema_desc true "ema_50" (t.rows.map (·.ema50)) 50 true 0).1 &&
          (ema_desc true "ema_200" (t.rows.map (·.ema200)) 200 true 0).1
      else (ema_desc true "ema_50" (t.rows.map (·.ema50)) 50 true 0).1) := by
  have he50 : (if 50 < ((t.rows.map (·.ema50)).filterMap id).length then
      ema_desc t.hasEma50 "ema_50" (t.rows.map (·.ema50)) 50 true 0
    else ((false : Bool), (none : Option String))).1 =
      (ema_desc true "ema_50" (t.rows.map (·.ema50)) 50 true 0).1 := by
    rw [h50]
    by_cases hc : 50 < ((t.rows.map (·.ema50)).filterMap id).length
    · rw [if_pos hc]
    · rw [if_neg hc]
      unfold ema_desc
      rw [if_neg (by simp), if_pos (by omega)]
      rfl
  simp only [daily_ema_logic, h50, h200, if_true, not_true, if_false]
  by_cases hcount : 200 < ((t.rows.map (·.ema200)).filterMap id).length
  · simp only [if_pos hcount, Except.map]
    rw [← he50, h50]
  · simp only [if_neg hcount, Except.map]
    rw [← he50, h50]

/-- C6 (amended): characterization of the daily trend check.  Given a
non-degenerate daily window split, (1) a missing indicator frame fails,
(2) a missing ema_50 column fails, (3) an ema_50 column without an
ema_200 column raises KeyError, and (4) with both columns present the
pattern passes iff the windowed-highs check passes and â exactly when
MORE THAN 200 non-null ema_200 points exist â both the 50-lag and
200-lag descents hold, the 50-lag descent alone otherwise. -/
theorem C6_amended_daily_ema_gate (df : List Candle) (ind : Option IndTable)
    (now : ℤ)
    (hwin : df.filter (fun c => now - 30 * 86400 ≤ c.time) ≠ [])
    (hrec : (df.filter (fun c => now - 30 * 86400 ≤ c.time)).filter
      (fun c => now - 7 * 86400 ≤ c.time) ≠ [])
    (hbase : (df.filter (fun c => now - 30 * 86400 ≤ c.time)).filter
      (fun c => c.time < now - 7 * 86400) ≠ []) :
    (ind = none →
      (detect_descending_rules df "daily" ind now).map (·.passed) =
        Except.ok false) ∧
    (∀ t, ind = some t → t.hasEma50 = false →
      (detect_descending_rules df "daily" ind now).map (·.passed) =
        Except.ok false) ∧
    (∀ t, ind = some t → t.hasEma50 = true → t.hasEma200 = false →
      detect_descending_rules df "daily" ind now =
        Except.error "KeyError: ema_200") ∧
    (∀ t, ind = some t → t.hasEma50 = true → t.hasEma200 = true →
      (detect_descending_rules df "daily" ind now).map (·.passed) =
        Except.ok (
          decide (maxQ (((df.filter (fun c => now - 30 * 86400 ≤ c.time)).filter
              (fun c => now - 7 * 86400 ≤ c.time)).map (·.high)) ≤
            maxQ (((df.filter (fun c => now - 30 * 86400 ≤ c.time)).filter
              (fun c => c.time < now - 7 * 86400)).map (·.high))) &&
          (if 200 < ((t.rows.map (·.ema200)).filterMap id).length then
            (ema_desc true "ema_50" (t.rows.map (·.ema50)) 50 true 0).1 &&
              (ema_desc true "ema_200" (t.rows.map (·.ema200)) 200 true 0).1
          else
            (ema_desc true "ema_50" (t.rows.map (·.ema50)) 50 true 0).1))) := by
  have hne : df ≠ [] := by
    intro h
    rw [h] at hwin
    exact hwin rfl
  have hsplit : ¬((df.filter (fun c => now - 30 * 86400 ≤ c.time)).filter
      (fun c => c.time < now - 7 * 86400) = [] ∨
    (df.filter (fun c => now - 30 * 86400 ≤ c.time)).filter
      (fun c => now - 7 * 86400 ≤ c.time) = []) := by
    rw [not_or]
    exact ⟨hbase, hrec⟩
  have hbranch : ∀ (el : Except String (Bool × Option String)),
      daily_ema_logic ind = el →
      detect_descending_rules df "daily" ind now =
        (match el with
        | .error e => .error e
        | .ok ep =>
          .ok ⟨decide (maxQ (((df.filter (fun c => now - 30 * 86400 ≤ c.time)).filter
                (fun c => now - 7 * 86400 ≤ c.time)).map (·.high)) ≤
              maxQ (((df.filter (fun c => now - 30 * 86400 ≤ c.time)).filter
                (fun c => c.time < now - 7 * 86400)).map (·.high))) && ep.1,
            slopeOf ((df.filter (fun c => now - 30 * 86400 ≤ c.time)).map (·.high)),
            df.filter (fun c => now - 30 * 86400 ≤ c.time),
            if (decide (maxQ (((df.filter (fun c => now - 30 * 86400 ≤ c.time)).filter
                (fun c => now - 7 * 86400 ≤ c.time)).map (·.high)) ≤
              maxQ (((df.filter (fun c => now - 30 * 86400 ≤ c.time)).filter
                (fun c => c.time < now - 7 * 86400)).map (·.high))) && ep.1) then 1 else 0,
            if (decide (maxQ (((df.filter (fun c => now - 30 * 86400 ≤ c.time)).filter
                (fun c => now - 7 * 86400 ≤ c.time)).map (·.high)) ≤
              maxQ (((df.filter (fun c => now - 30 * 86400 ≤ c.time)).filter
                (fun c => c.time < now - 7 * 86400)).map (·.high))) && ep.1) then 0 else 1,
            0,
            if (decide (maxQ (((df.filter (fun c => now - 30 * 86400 ≤ c.time)).filter
                (fun c => now - 7 * 86400 ≤ c.time)).map (·.high)) ≤
              maxQ (((df.filter (fun c => now - 30 * 86400 ≤ c.time)).filter
                (fun c => c.time < now - 7 * 86400)).map (·.high))) && ep.1) then none
            else some ((ep.2).getD "recent high > prior window")⟩) := by
    intro el hel
    unfold detect_descending_rules
    rw [if_neg hne, if_neg (by decide), if_pos rfl, if_neg hwin, if_neg hsplit, hel]
  refine ⟨?_, ?_, ?_, ?_⟩
  · intro h0
    subst h0
    rw [hbranch (.ok (false, some "missing ema 50")) rfl]
    simp [Except.map]
  · intro t h0 h50
    subst h0
    rw [hbranch (.ok (false, some "missing ema 50")) (daily_ema_logic_no50 h50)]
    simp [Except.map]
  · intro t h0 h50 h200
    subst h0
    rw [hbranch (.error "KeyError: ema_200") (daily_ema_logic_no200 h50 h200)]
  · intro t h0 h50 h200
    subst h0
    have hmap := daily_ema_logic_both h50 h200
    rcases hde : daily_ema_logic (some t) with e | ep
    · rw [hde] at hmap
      exact absurd hmap (by simp [Except.map])
    · rw [hde] at hmap
      simp only [Except.map, Except.ok.injEq] at hmap
      rw [hbranch (.ok ep) hde]
      simp only [Except.map]
      rw [hmap]

set_option maxRecDepth 100000 in
/-- C6 (counterexample): with EXACTLY 200 non-null ema_200 points
available ("at least 200" per the claim) and the 200-lag descent
failing (ema_200 constant, and too short for a 200-lag comparison
anyway), the daily detect still passes on the strength of ema_50
alone — the code gates on MORE THAN 200 points, not at-least 200. -/
theorem C6_counterexample_exactly_200 :
    ((c6_ind.rows.map (·.ema200)).filterMap id).length = 200 ∧
    (ema_desc true "ema_200" (c6_ind.rows.map (·.ema200)) 200 true 0).1 = false ∧
    (detect_descending_rules c6_df "daily" (some c6_ind) (40 * 86400)).map
      (·.passed) = Except.ok true := by
  refine ⟨by decide, by decide, ?_⟩
  with_unfolding_all decide

set_option maxRecDepth 100000 in
/-- C6 (amended, witness): the characterization applied to the concrete
201-row indicator table and two-candle daily series. -/
theorem C6_amended_witness :
    (detect_descending_rules c6_df "daily" (some c6_ind) (40 * 86400)).map
      (·.passed) = Except.ok (
        decide (maxQ (((c6_df.filter
            (fun c => (40 * 86400 : ℤ) - 30 * 86400 ≤ c.time)).filter
            (fun c => (40 * 86400 : ℤ) - 7 * 86400 ≤ c.time)).map (·.high)) ≤
          maxQ (((c6_df.filter
            (fun c => (40 * 86400 : ℤ) - 30 * 86400 ≤ c.time)).filter
            (fun c => c.time < (40 * 86400 : ℤ) - 7 * 86400)).map (·.high))) &&
        (if 200 < ((c6_ind.rows.map (·.ema200)).filterMap id).length then
          (ema_desc true "ema_50" (c6_ind.rows.map (·.ema50)) 50 true 0).1 &&
            (ema_desc true "ema_200" (c6_ind.rows.map (·.ema200)) 200 true 0).1
        else (ema_desc true "ema_50" (c6_ind.rows.map (·.ema50)) 50 true 0).1)) :=
  (C6_amended_daily_ema_gate c6_df (some c6_ind) (40 * 86400)
    (by decide) (by decide) (by decide)).2.2.2 c6_ind rfl (by decide) (by decide)

/-- The monthly branch of variant-B detect never reads the clock. -/
theorem detect_monthly_now_free (df : List Candle) (ind : Option IndTable)
    (now₁ now₂ : ℤ) :
    detect_descending_rules df "monthly" ind now₁ =
      detect_descending_rules df "monthly" ind now₂ := by
  unfold detect_descending_rules
  by_cases h : df = []
  · rw [if_pos h, if_pos h]
  · rw [if_neg h, if_neg h, if_pos rfl, if_pos rfl]

set_option maxRecDepth 100000 in
/-- C7 (counterexample): identical cached candles and indicators, yet the
pipeline score differs between two runs — the daily branch windows the
candles by the wall clock, so running at day 40 scores 21/100 while
running at day 200 scores 0. -/
theorem C7_counterexample_wall_clock :
    analyze_pair_score ["daily"] c7_frames c7_inds false (40 * 86400) ≠
      analyze_pair_score ["daily"] c7_frames c7_inds false (200 * 86400) := by
  with_unfolding_all decide

/-- C7 (amended): the score is deterministic given identical cached inputs
AND a fixed evaluation instant; restricted to the monthly timeframe the
pipeline is genuinely clock-free — two runs over the same cached candle
and indicator series at any two instants produce equal scores. -/
theorem C7_amended_monthly_scoring_clock_free (frames : String → List Candle)
    (inds : String → Option IndTable) (is_solana : Bool) (now₁ now₂ : ℤ) :
    analyze_pair_score ["monthly"] frames inds is_solana now₁ =
      analyze_pair_score ["monthly"] frames inds is_solana now₂ := by
  unfold analyze_pair_score analyze_outcomes
  simp only [List.mapM_cons, List.mapM_nil]
  rw [detect_monthly_now_free (frames "monthly") (inds "monthly") now₁ now₂]

/-! ## Claim C8 — poc_distance_score totality (corrected) -/

/-- C8 (counterexample): on the empty candle series the scorer does not
return a value — `df["close"].iloc[-1]` raises IndexError before the
NaN/zero guards can run. -/
theorem C8_counterexample_empty_series :
    poc_distance_score [] ⟨some 1, none, none, [], []⟩ =
      Except.error "IndexError: single positional indexer is out-of-bounds" := rfl

/-- C8 (amended): on every NON-EMPTY candle series the scorer returns a
value: 0 when the point-of-control is NaN or the last close is 0, else
clamp(1 − |lastClose − poc| / lastClose, 0, 1); the empty series raises
IndexError instead. -/
theorem C8_amended_poc_distance (df : List Candle) (vp : VolumeProfileResult)
    (h : df ≠ []) :
    poc_distance_score df vp = Except.ok (
      match vp.poc with
      | none => 0
      | some poc =>
        if (df.getLast?.getD default).close = 0 then 0
        else min (max (1 - |(df.getLast?.getD default).close - poc| /
          (df.getLast?.getD default).close) 0) 1) := by
  rcases hL : df.getLast? with _ | c
  · exact absurd (List.getLast?_eq_none_iff.mp hL) h
  · unfold poc_distance_score
    rw [hL]
    simp only [Option.getD_some]
    cases vp.poc with
    | none => rfl
    | some poc =>
      by_cases hc : c.close = 0
      · simp [hc]
      · simp [hc]

/-- C8 (amended, witness): the clamp formula on a one-candle series with
close 2 and point-of-control 1. -/
theorem C8_amended_witness :
    poc_distance_score c8_df c8_vp = Except.ok (
      match c8_vp.poc with
      | none => 0
      | some poc =>
        if (c8_df.getLast?.getD default).close = 0 then 0
        else min (max (1 - |(c8_df.getLast?.getD default).close - poc| /
          (c8_df.getLast?.getD default).close) 0) 1) :=
  C8_amended_poc_distance c8_df c8_vp (by decide)

/-- C9: on the empty candle series variant A and variant B both return a
failed PatternResult with reason "no data" (variant B without raising),
and the volume profile is all-NaN with an empty histogram; total volume
zero likewise yields all-NaN poc/vah/val. -/
theorem C9_empty_series_graceful :
    (∀ min_peaks order : ℕ,
      (detect_lower_highs_scored [] min_peaks order).passed = false ∧
      (detect_lower_highs_scored [] min_peaks order).reason = some "no data") ∧
    (∀ (tf : String) (ind : Option IndTable) (now : ℤ),
      (detect_descending_rules [] tf ind now).map (·.passed) =
        Except.ok false ∧
      (detect_descending_rules [] tf ind now).map (·.reason) =
        Except.ok (some "no data")) ∧
    compute_volume_profile [] 30 (7 / 10) = ⟨none, none, none, [], []⟩ ∧
    (∀ df : List Candle, (df.map (·.volume)).sum = 0 →
      (compute_volume_profile df 30 (7 / 10)).poc = none ∧
      (compute_volume_profile df 30 (7 / 10)).vah = none ∧
      (compute_volume_profile df 30 (7 / 10)).val = none) := by
  refine ⟨fun min_peaks order => ⟨rfl, rfl⟩,
    fun tf ind now => ⟨rfl, rfl⟩, rfl, fun df h => ?_⟩
  unfold compute_volume_profile
  rw [if_pos (Or.inr h)]
  exact ⟨rfl, rfl, rfl⟩

/-- C9 (witness): the empty-series detector outcome and the zero-volume
all-NaN profile at a concrete one-candle series. -/
theorem C9_witness :
    (detect_lower_highs_scored [] 3 2).passed = false ∧
    (compute_volume_profile c9_df 30 (7 / 10)).poc = none :=
  ⟨(C9_empty_series_graceful.1 3 2).1,
   (C9_empty_series_graceful.2.2.2 c9_df (by with_unfolding_all decide)).1⟩

end Kraken
